import Mathlib

/-!
Verification development for the Blade repository's hybrid recommendation
engine (`backend/recommender/utils.py`, `backend/recommender/models.py`,
`backend/ads/models.py`, `backend/ads/views.py`).

The Python code computes ranking scores with IEEE floats.  Here float
arithmetic is modelled by exact arithmetic: `Frac` is an unreduced fraction
of integers (numerator/denominator pair, never normalised, so every
operation is a plain integer computation that the kernel can evaluate),
and `F2` is a pair of `Frac`s representing `a + b·√2`, which is enough to
evaluate the cosine-similarity scenarios exactly.  The recommendation
pipeline itself is defined over an arbitrary score type `K` equipped with
lawless arithmetic instances, a boolean comparison `kle` and a square-root
function `sqrt`, exactly as the source is generic in its float operations;
theorems that need algebraic laws take them as explicit hypotheses, and
concrete scenarios instantiate `K := F2`.

Bridge lemmas (`Frac.le_iff_toRat`, `F2.le_iff_toReal`, …) relate the
exact arithmetic to real arithmetic, certifying that the boolean
comparisons used by the pipeline agree with the real-number comparisons
the floats approximate.
-/

namespace Blade

/-- Unreduced fraction of integers: `n / d`.  No normalisation ever happens,
so all operations are plain integer arithmetic. -/
structure Frac where
  n : ℤ
  d : ℤ
deriving DecidableEq, Repr

def Frac.add (x y : Frac) : Frac := ⟨x.n * y.d + y.n * x.d, x.d * y.d⟩

def Frac.neg (x : Frac) : Frac := ⟨-x.n, x.d⟩

def Frac.mul (x y : Frac) : Frac := ⟨x.n * y.n, x.d * y.d⟩

def Frac.div (x y : Frac) : Frac := ⟨x.n * y.d, x.d * y.n⟩

instance : Zero Frac := ⟨⟨0, 1⟩⟩

instance : One Frac := ⟨⟨1, 1⟩⟩

instance : Add Frac := ⟨Frac.add⟩

instance : Neg Frac := ⟨Frac.neg⟩

instance : Sub Frac := ⟨fun x y => Frac.add x (Frac.neg y)⟩

instance : Mul Frac := ⟨Frac.mul⟩

instance : Div Frac := ⟨Frac.div⟩

/-- Boolean comparison `x ≤ y` on fractions, by cross-multiplication
(correct whenever the denominators are nonzero; see `Frac.le_iff_toRat`). -/
def Frac.le (x y : Frac) : Bool := decide (0 ≤ (y.n * x.d - x.n * y.d) * (y.d * x.d))

def Frac.ofInt (k : ℤ) : Frac := ⟨k, 1⟩

/-- Denominator is nonzero: the fraction denotes an actual rational. -/
def Frac.wf (x : Frac) : Prop := x.d ≠ 0

def Frac.toRat (x : Frac) : ℚ := (x.n : ℚ) / (x.d : ℚ)

/-- Exact model of `a + b·√2`; closed under the arithmetic the
cosine-similarity scenarios need. -/
structure F2 where
  a : Frac
  b : Frac
deriving DecidableEq, Repr

def F2.add (x y : F2) : F2 := ⟨x.a + y.a, x.b + y.b⟩

def F2.neg (x : F2) : F2 := ⟨-x.a, -x.b⟩

def F2.mul (x y : F2) : F2 :=
  ⟨x.a * y.a + Frac.ofInt 2 * (x.b * y.b), x.a * y.b + x.b * y.a⟩

instance : Zero F2 := ⟨⟨0, 0⟩⟩

instance : One F2 := ⟨⟨1, 0⟩⟩

instance : Add F2 := ⟨F2.add⟩

instance : Neg F2 := ⟨F2.neg⟩

instance : Sub F2 := ⟨fun x y => F2.add x (F2.neg y)⟩

instance : Mul F2 := ⟨F2.mul⟩

/-- Field norm `a² − 2b²` of `a + b√2`, used to define division. -/
def F2.norm2 (x : F2) : Frac := x.a * x.a - Frac.ofInt 2 * (x.b * x.b)

def F2.div (x y : F2) : F2 :=
  ⟨(x.a * y.a - Frac.ofInt 2 * (x.b * y.b)) / F2.norm2 y,
   (x.b * y.a - x.a * y.b) / F2.norm2 y⟩

instance : Div F2 := ⟨F2.div⟩

/-- Decidable nonnegativity of `a + b√2`, by sign analysis and squaring. -/
def F2.nonneg (x : F2) : Bool :=
  if Frac.le 0 x.b then Frac.le 0 x.a || Frac.le (x.a * x.a) (Frac.ofInt 2 * (x.b * x.b))
  else Frac.le 0 x.a && Frac.le (Frac.ofInt 2 * (x.b * x.b)) (x.a * x.a)

/-- Boolean comparison `x ≤ y` on `F2` (see `F2.le_iff_toReal`). -/
def F2.le (x y : F2) : Bool := F2.nonneg (y - x)

def F2.ofInt (k : ℤ) : F2 := ⟨Frac.ofInt k, 0⟩

def F2.wf (x : F2) : Prop := x.a.wf ∧ x.b.wf

/-- Real value denoted by an `F2` (bridge to the float semantics). -/
noncomputable def F2.toReal (x : F2) : ℝ := (x.a.toRat : ℝ) + (x.b.toRat : ℝ) * Real.sqrt 2

/-- Exact square root of a natural number, if it exists. -/
def natSqrtExact (m : ℕ) : Option ℕ := (List.range (m + 1)).find? (fun k => k * k == m)

def intSqrtExact (m : ℤ) : Option ℤ :=
  if m < 0 then none else (natSqrtExact m.toNat).map Int.ofNat

/-- Exact nonnegative rational square root of a fraction, when one exists:
`√(n/d) = √(n·d) / |d|`. -/
def Frac.sqrtExact (x : Frac) : Option Frac :=
  match intSqrtExact (x.n * x.d) with
  | some r => some ⟨r, (x.d.natAbs : ℤ)⟩
  | none => none

/-- Square root on `F2`, defined (as a nonnegative value) whenever the
argument is a fraction that is a rational square or twice one; `0`
otherwise.  The recommender only ever takes square roots of integer dot
products, and every scenario below only relies on values where this is
exact (certified against `Real.sqrt` in the scenario theorems). -/
def F2.sqrt (x : F2) : F2 :=
  if x.b.n = 0 then
    match x.a.sqrtExact with
    | some r => ⟨r, 0⟩
    | none =>
      match (x.a / Frac.ofInt 2).sqrtExact with
      | some r => ⟨0, r⟩
      | none => 0
  else 0

/-! ### Unfolding equations and exact algebraic laws of `Frac` / `F2` -/

theorem Frac.add_def (x y : Frac) : x + y = Frac.add x y := rfl

theorem Frac.neg_def (x : Frac) : -x = Frac.neg x := rfl

theorem Frac.sub_def (x y : Frac) : x - y = Frac.add x (Frac.neg y) := rfl

theorem Frac.mul_def (x y : Frac) : x * y = Frac.mul x y := rfl

theorem Frac.div_def (x y : Frac) : x / y = Frac.div x y := rfl

theorem Frac.zero_def : (0 : Frac) = ⟨0, 1⟩ := rfl

theorem Frac.one_def : (1 : Frac) = ⟨1, 1⟩ := rfl

theorem F2.add_def2 (x y : F2) : x + y = F2.add x y := rfl

theorem F2.neg_def2 (x : F2) : -x = F2.neg x := rfl

theorem F2.sub_def2 (x y : F2) : x - y = F2.add x (F2.neg y) := rfl

theorem F2.mul_def2 (x y : F2) : x * y = F2.mul x y := rfl

theorem F2.div_def2 (x y : F2) : x / y = F2.div x y := rfl

theorem F2.zero_def2 : (0 : F2) = ⟨⟨0, 1⟩, ⟨0, 1⟩⟩ := rfl

theorem F2.one_def2 : (1 : F2) = ⟨⟨1, 1⟩, ⟨0, 1⟩⟩ := rfl

theorem Frac.add_assoc3 (x y z : Frac) : x + y + z = x + (y + z) := by
  rcases x with ⟨a, b⟩; rcases y with ⟨c, d⟩; rcases z with ⟨e, f⟩
  show Frac.add (Frac.add _ _) _ = Frac.add _ (Frac.add _ _)
  simp only [Frac.add_def, Frac.add, Frac.mk.injEq]
  and_intros <;> ring

theorem F2.add_assocF (x y z : F2) : x + y + z = x + (y + z) := by
  rcases x with ⟨⟨a, b⟩, ⟨c, d⟩⟩; rcases y with ⟨⟨e, f⟩, ⟨g, h⟩⟩; rcases z with ⟨⟨i, j⟩, ⟨k, l⟩⟩
  show F2.add (F2.add _ _) _ = F2.add _ (F2.add _ _)
  simp only [F2.add_def2, F2.add, Frac.add_def, Frac.add, Frac.zero_def, F2.mk.injEq,
    Frac.mk.injEq]
  and_intros <;> ring

theorem F2.add_zero3 (x : F2) : x + 0 = x := by
  rcases x with ⟨⟨a, b⟩, ⟨c, d⟩⟩
  show F2.add _ ⟨⟨0, 1⟩, ⟨0, 1⟩⟩ = _
  simp only [F2.add_def2, F2.add, Frac.add_def, Frac.add, Frac.zero_def, F2.mk.injEq,
    Frac.mk.injEq]
  and_intros <;> ring

theorem F2.zero_add3 (x : F2) : 0 + x = x := by
  rcases x with ⟨⟨a, b⟩, ⟨c, d⟩⟩
  show F2.add ⟨⟨0, 1⟩, ⟨0, 1⟩⟩ _ = _
  simp only [F2.add_def2, F2.add, Frac.add_def, Frac.add, Frac.zero_def, F2.mk.injEq,
    Frac.mk.injEq]
  and_intros <;> ring

theorem F2.mul_comm3 (x y : F2) : x * y = y * x := by
  rcases x with ⟨⟨a, b⟩, ⟨c, d⟩⟩; rcases y with ⟨⟨e, f⟩, ⟨g, h⟩⟩
  show F2.mul _ _ = F2.mul _ _
  simp only [F2.mul_def2, F2.mul, Frac.mul_def, Frac.mul, Frac.add_def, Frac.add, Frac.ofInt,
    F2.mk.injEq, Frac.mk.injEq]
  and_intros <;> ring

/-- The materiality test of the CF path at integer scores: for an integer
interaction score `z` (cast into `F2`), the source's `score > 0.1` test
holds exactly when `z ≥ 1`. -/
theorem interacted_test_ofInt (z : ℤ) :
    (!F2.le (F2.ofInt z) (F2.ofInt 1 / F2.ofInt 10)) = decide (1 ≤ z) := by
  have h : F2.ofInt 1 / F2.ofInt 10 = ⟨⟨10, 100⟩, ⟨0, 100⟩⟩ := by decide
  rw [h]
  show (!F2.nonneg (F2.add ⟨⟨10, 100⟩, ⟨0, 100⟩⟩ (F2.neg (F2.ofInt z)))) = decide (1 ≤ z)
  simp only [F2.nonneg, F2.add, F2.neg, F2.ofInt, Frac.ofInt, Frac.add_def, Frac.add,
    Frac.neg_def, Frac.neg, Frac.mul_def, Frac.mul, Frac.zero_def, Frac.le]
  norm_num
  rcases le_or_lt z 0 with hz | hz
  · have h1 : z * 100 ≤ 10 := by nlinarith
    have h2 : ¬(1 ≤ z) := by omega
    simp [h1, h2]
  · have h1 : ¬(z * 100 ≤ 10) := by nlinarith
    have hp : 0 < (10 + -(z * 100)) * (10 + -(z * 100)) :=
      mul_pos_of_neg_of_neg (by omega) (by omega)
    have h3 : ¬((10 + -(z * 100)) * (10 + -(z * 100)) * 10000 * 100000000 ≤ 0) := by
      have hq : 0 < (10 + -(z * 100)) * (10 + -(z * 100)) * 10000 * 100000000 :=
        mul_pos (mul_pos hp (by norm_num)) (by norm_num)
      omega
    simp [h1, h3]
    omega

/-! ### Bridge lemmas: the exact arithmetic denotes rational / real values -/

theorem rat_div_nonneg_iff (a b : ℚ) : 0 ≤ a / b ↔ 0 ≤ a * b := by
  rw [div_nonneg_iff, mul_nonneg_iff]

/-- The cross-multiplication comparison agrees with the rational order on
well-formed fractions. -/
theorem Frac.le_iff_toRat (x y : Frac) (hx : x.wf) (hy : y.wf) :
    Frac.le x y = true ↔ x.toRat ≤ y.toRat := by
  have hx2 : ((x.d : ℚ)) ≠ 0 := Int.cast_ne_zero.mpr hx
  have hy2 : ((y.d : ℚ)) ≠ 0 := Int.cast_ne_zero.mpr hy
  have hsub : y.toRat - x.toRat =
      (((y.n * x.d - x.n * y.d : ℤ) : ℚ)) / (((y.d * x.d : ℤ) : ℚ)) := by
    unfold Frac.toRat
    push_cast
    field_simp
    ring
  rw [← sub_nonneg, hsub, rat_div_nonneg_iff, ← Int.cast_mul]
  unfold Frac.le
  rw [decide_eq_true_eq]
  exact_mod_cast Iff.rfl

theorem Frac.toRat_add (u v : Frac) (hu : u.wf) (hv : v.wf) :
    (u + v).toRat = u.toRat + v.toRat := by
  rcases u with ⟨a, b⟩; rcases v with ⟨c, d⟩
  have hb : ((b : ℚ)) ≠ 0 := Int.cast_ne_zero.mpr hu
  have hd : ((d : ℚ)) ≠ 0 := Int.cast_ne_zero.mpr hv
  show Frac.toRat (Frac.add _ _) = _
  unfold Frac.add Frac.toRat
  push_cast
  field_simp

theorem Frac.toRat_neg (u : Frac) : (-u).toRat = -u.toRat := by
  rcases u with ⟨a, b⟩
  show Frac.toRat (Frac.neg _) = _
  unfold Frac.neg Frac.toRat
  push_cast
  ring

theorem Frac.toRat_mul (u v : Frac) : (u * v).toRat = u.toRat * v.toRat := by
  rcases u with ⟨a, b⟩; rcases v with ⟨c, d⟩
  show Frac.toRat (Frac.mul _ _) = _
  unfold Frac.mul Frac.toRat
  push_cast
  rw [div_mul_div_comm]

theorem Frac.toRat_ofInt (k : ℤ) : (Frac.ofInt k).toRat = (k : ℚ) := by
  unfold Frac.ofInt Frac.toRat
  norm_num

theorem Frac.toRat_zero : (0 : Frac).toRat = 0 := by
  rw [Frac.zero_def]
  unfold Frac.toRat
  norm_num

/-- The sign test on `a + b·√2` agrees with the real order. -/
theorem F2.nonneg_iff_toReal (z : F2) (hz : z.wf) :
    F2.nonneg z = true ↔ 0 ≤ F2.toReal z := by
  have hwz : Frac.wf 0 := one_ne_zero
  have hb := Frac.le_iff_toRat 0 z.b hwz hz.2
  have ha := Frac.le_iff_toRat 0 z.a hwz hz.1
  have hsq1 := Frac.le_iff_toRat (z.a * z.a) (Frac.ofInt 2 * (z.b * z.b))
    (mul_ne_zero hz.1 hz.1) (mul_ne_zero one_ne_zero (mul_ne_zero hz.2 hz.2))
  have hsq2 := Frac.le_iff_toRat (Frac.ofInt 2 * (z.b * z.b)) (z.a * z.a)
    (mul_ne_zero one_ne_zero (mul_ne_zero hz.2 hz.2)) (mul_ne_zero hz.1 hz.1)
  rw [Frac.toRat_zero] at hb ha
  rw [Frac.toRat_mul, Frac.toRat_mul, Frac.toRat_mul, Frac.toRat_ofInt] at hsq1 hsq2
  set A := z.a.toRat with hA
  set B := z.b.toRat with hB
  have hs0 : (0 : ℝ) ≤ Real.sqrt 2 := Real.sqrt_nonneg 2
  have hs1 : (0 : ℝ) < Real.sqrt 2 := Real.sqrt_pos.mpr (by norm_num)
  have hss : Real.sqrt 2 * Real.sqrt 2 = 2 := Real.mul_self_sqrt (by norm_num)
  unfold F2.nonneg F2.toReal
  by_cases hbb : Frac.le 0 z.b = true
  · rw [if_pos hbb]
    have hB0 : (0 : ℚ) ≤ B := hb.mp hbb
    have hB0R : (0 : ℝ) ≤ ((B : ℝ)) := by exact_mod_cast hB0
    constructor
    · intro h
      rw [Bool.or_eq_true] at h
      rcases h with h1 | h2
      · have hq : (0 : ℚ) ≤ A := ha.mp h1
        have hr : (0 : ℝ) ≤ ((A : ℝ)) := by exact_mod_cast hq
        exact add_nonneg hr (mul_nonneg hB0R hs0)
      · have h2q : A * A ≤ 2 * (B * B) := hsq1.mp h2
        have h2r : ((A : ℝ)) * A ≤ 2 * (((B : ℝ)) * B) := by exact_mod_cast h2q
        by_contra hcon
        push_neg at hcon
        have hbs : (0 : ℝ) ≤ ((B : ℝ)) * Real.sqrt 2 := mul_nonneg hB0R hs0
        have hprod : (0 : ℝ) <
            (-((A : ℝ)) - B * Real.sqrt 2) * (((B : ℝ)) * Real.sqrt 2 - A) := by
          apply mul_pos <;> linarith
        have hexp : (-((A : ℝ)) - B * Real.sqrt 2) * (((B : ℝ)) * Real.sqrt 2 - A)
            = ((A : ℝ)) * A - ((B : ℝ)) * B * (Real.sqrt 2 * Real.sqrt 2) := by ring
        rw [hexp, hss] at hprod
        linarith
    · intro h
      rw [Bool.or_eq_true]
      by_cases hA1 : Frac.le 0 z.a = true
      · exact Or.inl hA1
      · have hAq : ¬ ((0 : ℚ) ≤ A) := fun hq => hA1 (ha.mpr hq)
        have hAr : ((A : ℝ)) < 0 := by exact_mod_cast not_le.mp hAq
        have hfac : (0 : ℝ) ≤
            (((B : ℝ)) * Real.sqrt 2 + A) * (((B : ℝ)) * Real.sqrt 2 - A) := by
          apply mul_nonneg <;> linarith
        have hexp : (((B : ℝ)) * Real.sqrt 2 + A) * (((B : ℝ)) * Real.sqrt 2 - A)
            = ((B : ℝ)) * B * (Real.sqrt 2 * Real.sqrt 2) - ((A : ℝ)) * A := by ring
        rw [hexp, hss] at hfac
        have h2q : A * A ≤ 2 * (B * B) := by
          exact_mod_cast (by linarith : ((A : ℝ)) * A ≤ 2 * (((B : ℝ)) * B))
        exact Or.inr (hsq1.mpr h2q)
  · rw [if_neg hbb]
    have hBq : ¬ ((0 : ℚ) ≤ B) := fun hq => hbb (hb.mpr hq)
    have hBr : ((B : ℝ)) < 0 := by exact_mod_cast not_le.mp hBq
    have hnb : (0 : ℝ) < -((B : ℝ)) * Real.sqrt 2 := mul_pos (by linarith) hs1
    constructor
    · intro h
      rw [Bool.and_eq_true] at h
      rcases h with ⟨h1, h2⟩
      have hA0 : (0 : ℚ) ≤ A := ha.mp h1
      have hAr : (0 : ℝ) ≤ ((A : ℝ)) := by exact_mod_cast hA0
      have h2q : 2 * (B * B) ≤ A * A := hsq2.mp h2
      have h2r : 2 * (((B : ℝ)) * B) ≤ ((A : ℝ)) * A := by exact_mod_cast h2q
      by_contra hcon
      push_neg at hcon
      have hfac : (0 : ℝ) <
          (-((B : ℝ)) * Real.sqrt 2 - A) * (-((B : ℝ)) * Real.sqrt 2 + A) := by
        apply mul_pos <;> linarith
      have hexp : (-((B : ℝ)) * Real.sqrt 2 - A) * (-((B : ℝ)) * Real.sqrt 2 + A)
          = ((B : ℝ)) * B * (Real.sqrt 2 * Real.sqrt 2) - ((A : ℝ)) * A := by ring
      rw [hexp, hss] at hfac
      linarith
    · intro h
      have hAr : (0 : ℝ) ≤ ((A : ℝ)) := by linarith
      have hA0 : (0 : ℚ) ≤ A := by exact_mod_cast hAr
      have hfac : (0 : ℝ) ≤
          (((A : ℝ)) - -((B : ℝ)) * Real.sqrt 2) * (((A : ℝ)) + -((B : ℝ)) * Real.sqrt 2) := by
        apply mul_nonneg <;> linarith
      have hexp : (((A : ℝ)) - -((B : ℝ)) * Real.sqrt 2) * (((A : ℝ)) + -((B : ℝ)) * Real.sqrt 2)
          = ((A : ℝ)) * A - ((B : ℝ)) * B * (Real.sqrt 2 * Real.sqrt 2) := by ring
      rw [hexp, hss] at hfac
      have h2q : 2 * (B * B) ≤ A * A := by
        exact_mod_cast (by linarith : 2 * (((B : ℝ)) * B) ≤ ((A : ℝ)) * A)
      rw [Bool.and_eq_true]
      exact ⟨ha.mpr hA0, hsq2.mpr h2q⟩

theorem F2.toReal_sub (x y : F2) (hx : x.wf) (hy : y.wf) :
    (y - x).toReal = y.toReal - x.toReal := by
  unfold F2.toReal
  have ha : (y - x).a = y.a + (-x.a) := rfl
  have hb : (y - x).b = y.b + (-x.b) := rfl
  rw [ha, hb, Frac.toRat_add y.a (-x.a) hy.1 hx.1, Frac.toRat_add y.b (-x.b) hy.2 hx.2,
    Frac.toRat_neg, Frac.toRat_neg]
  push_cast
  ring

/-- The boolean comparison on `F2` agrees with the real order on
well-formed values. -/
theorem F2.le_iff_toReal (x y : F2) (hx : x.wf) (hy : y.wf) :
    F2.le x y = true ↔ x.toReal ≤ y.toReal := by
  have hw : (y - x).wf := ⟨mul_ne_zero hy.1 hx.1, mul_ne_zero hy.2 hx.2⟩
  unfold F2.le
  rw [F2.nonneg_iff_toReal _ hw, F2.toReal_sub x y hx hy, sub_nonneg]

/-! ### List helpers: stable insertion sort (models `pandas`/`numpy`/Python
sorting; tie order among equal keys is not specified by the source, the
stable choice is fixed here) -/

def insertBy {α : Type} (le : α → α → Bool) (x : α) : List α → List α
  | [] => [x]
  | y :: ys => if le x y then x :: y :: ys else y :: insertBy le x ys

def sortBy {α : Type} (le : α → α → Bool) : List α → List α
  | [] => []
  | x :: xs => insertBy le x (sortBy le xs)

theorem perm_insertBy {α : Type} (le : α → α → Bool) (x : α) :
    ∀ l : List α, List.Perm (insertBy le x l) (x :: l) := by
  intro l
  induction l with
  | nil => simp [insertBy]
  | cons y ys ih =>
    simp only [insertBy]
    split
    · exact List.Perm.refl _
    · exact List.Perm.trans (List.Perm.cons y ih) (List.Perm.swap x y ys)

theorem perm_sortBy {α : Type} (le : α → α → Bool) :
    ∀ l : List α, List.Perm (sortBy le l) l := by
  intro l
  induction l with
  | nil => exact List.Perm.refl _
  | cons x xs ih =>
    exact List.Perm.trans (perm_insertBy le x (sortBy le xs)) (List.Perm.cons x ih)

/-! ### Tokenizer (`_tokenize_text` in `recommender/utils.py`)

Lower-case the text, extract `#word`, `@word` and plain word tokens
(the regex `(?:#\w+|\@\w+|\b\w+\b)` scanned left to right), then keep a
token iff its length exceeds 2 or it starts with `#` or `@`. -/

def isWordChar (c : Char) : Bool := c.isAlphanum || c == '_'

def tokenizeAux : ℕ → List Char → List (List Char)
  | 0, _ => []
  | _, [] => []
  | fuel + 1, c :: rest =>
    if isWordChar c then
      (c :: rest.takeWhile isWordChar) :: tokenizeAux fuel (rest.dropWhile isWordChar)
    else if (c == '#' || c == '@') && (match rest with
              | r :: _ => isWordChar r
              | [] => false) then
      (c :: rest.takeWhile isWordChar) :: tokenizeAux fuel (rest.dropWhile isWordChar)
    else
      tokenizeAux fuel rest

def tokenize_text (s : String) : List String :=
  let toks := tokenizeAux s.length (s.toList.map Char.toLower)
  (toks.filter (fun t => t.length > 2 || t.headD ' ' == '#' || t.headD ' ' == '@')).map
    List.asString

/-! ### Data model (from `api/models.py`, `recommender/models.py`,
`ads/models.py`)

Timestamps are modelled as integers (absolute time); `dateOf` buckets a
timestamp into its day, modelling `datetime.date()` for daily frequency
capping.  Engagement counters (`view_count`, `watch_time`, and the
`total_likes` / `total_comments` annotations) are kept as integer fields
of `Post`, as read by the fallback scorer in `utils.py`. -/

structure AuthUser where
  id : ℕ
  is_superuser : Bool
deriving DecidableEq, Repr

structure Post where
  id : ℕ
  user_id : ℕ
  keywords : String
  created_at : ℤ
  view_count : ℤ
  watch_time : ℤ
  likes : ℕ
  comments : ℕ
deriving DecidableEq, Repr

structure Video where
  id : ℕ
  uploader_id : ℕ
  description : String
  tags : String
  upload_timestamp : ℤ
  source_post : Option ℕ
deriving DecidableEq, Repr

structure UserVideoInteraction where
  user_id : ℕ
  video_id : ℕ
  watch_time_seconds : ℕ
  liked : Option Bool
  shared : Bool
  completed_watch : Bool
  commented : Bool
deriving DecidableEq, Repr

structure Ad where
  id : ℕ
  status : String
  keywords : String
  target_time_of_day_start : Option ℤ
  target_time_of_day_end : Option ℤ
deriving DecidableEq, Repr

structure AdImpression where
  ad_id : ℕ
  user_id : ℕ
  impression_date : ℤ
deriving DecidableEq, Repr

/-- Snapshot of the relational store consumed by the recommender.
`interest_profiles` models `UserInterestProfile.keywords_summary`
(keyword → weight); the recommendation path never reads it. -/
structure DB where
  users : List AuthUser
  posts : List Post
  videos : List Video
  interactions : List UserVideoInteraction
  follows : List (ℕ × ℕ)
  ads : List Ad
  ad_impressions : List AdImpression
  interest_profiles : List (ℕ × List (String × Frac))
deriving DecidableEq, Repr

def dateOf (t : ℤ) : ℤ := t / 86400

/-- Interaction score of a `UserVideoInteraction`
(`recommender/models.py`, lines 153-179): sequential accumulation exactly
as in the source property. -/
def interaction_score (r : UserVideoInteraction) : ℤ :=
  let s0 : ℤ := 0
  let s1 := if r.watch_time_seconds > 60 then s0 + 1 else s0
  let s2 := if r.watch_time_seconds > 300 then s1 + 1 else s1
  let s3 := if r.completed_watch then s2 + 2 else s2
  let s4 := if r.liked = some true then s3 + 3 else s3
  let s5 := if r.liked = some false then s4 - 2 else s4
  let s6 := if r.shared then s5 + 2 else s5
  let s7 := if r.commented then s6 + 3 else s6
  s7

/-! ### The recommender cache (`RECOMMENDER_DATA_CACHE` in
`recommender/utils.py`)

The user-item matrix is stored as `(user ids, video ids, rows)`; maps are
association lists.  `Option` models a `None` entry. -/

structure Cache (K : Type) where
  user_item_matrix_df : Option (List ℕ × List ℕ × List (List ℤ))
  item_similarity_matrix : Option (List (List K))
  video_id_to_idx : Option (List (ℕ × ℕ))
  video_idx_to_id : Option (List (ℕ × ℕ))
  user_id_to_idx : Option (List (ℕ × ℕ))
  user_idx_to_id : Option (List (ℕ × ℕ))
  video_features_map : Option (List (ℕ × List String))
  all_post_keywords : Option (List String)
  user_follows_map : Option (List (ℕ × List ℕ))
deriving DecidableEq, Repr

def Cache.empty (K : Type) : Cache K :=
  ⟨none, none, none, none, none, none, none, none, none⟩

/-- Association-list lookup, modelling Python `dict.get`. -/
def alookup {α : Type} (l : List (ℕ × α)) (k : ℕ) : Option α :=
  (l.find? (fun p => p.1 == k)).map Prod.snd

/-! ### Interaction-matrix builder
(`build_interaction_data_and_matrices`, `recommender/utils.py` 51-203) -/

/-- Interaction records with nonzero derived score (line 115-118). -/
def nz_interaction_list (db : DB) : List UserVideoInteraction :=
  db.interactions.filter (fun r => decide (interaction_score r ≠ 0))

/-- Sorted distinct user ids of the pivot table's index
(`pivot_table` sorts its index). -/
def cf_user_ids (db : DB) : List ℕ :=
  sortBy (fun a b => decide (a ≤ b)) ((nz_interaction_list db).map (·.user_id)).dedup

/-- Sorted distinct video ids of the pivot table's columns. -/
def cf_video_ids (db : DB) : List ℕ :=
  sortBy (fun a b => decide (a ≤ b)) ((nz_interaction_list db).map (·.video_id)).dedup

/-- Cell of the pivoted user-item matrix: the score of the (by
`unique_together ('user', 'video')` unique) record for that pair, `0` when
the pair has no nonzero-score record (`fillna(0)`). -/
def pivot_cell (nz : List UserVideoInteraction) (u v : ℕ) : ℤ :=
  match nz.filter (fun r => r.user_id == u && r.video_id == v) with
  | [] => 0
  | r :: _ => interaction_score r

def pivot_rows (nz : List UserVideoInteraction) (uids vids : List ℕ) : List (List ℤ) :=
  uids.map (fun u => vids.map (fun v => pivot_cell nz u v))

/-- Dot product of two item columns of the user-item matrix. -/
def col_dot (nz : List UserVideoInteraction) (uids : List ℕ) (v w : ℕ) : ℤ :=
  (uids.map (fun u => pivot_cell nz u v * pivot_cell nz u w)).sum

section Pipeline

variable (K : Type) [Zero K] [One K] [Add K] [Neg K] [Mul K] [Div K]
variable (kle : K → K → Bool) (sqrt : K → K) (ofZ : ℤ → K)

/-- Cosine similarity of two item columns (`sklearn cosine_similarity`
over the transposed user-item matrix; a zero-norm column keeps divisor 1,
matching sklearn's zero-norm handling). -/
def cos_sim (nz : List UserVideoInteraction) (uids : List ℕ) (v w : ℕ) : K :=
  let nv := col_dot nz uids v v
  let nw := col_dot nz uids w w
  ofZ (col_dot nz uids v w) /
    ((if nv = 0 then 1 else sqrt (ofZ nv)) * (if nw = 0 then 1 else sqrt (ofZ nw)))

def sim_rows (nz : List UserVideoInteraction) (uids vids : List ℕ) : List (List K) :=
  vids.map (fun v => vids.map (fun w => cos_sim K sqrt ofZ nz uids v w))

end Pipeline

/-- Token set of a video: union of tokens of its tags and description
(`utils.py` lines 152-161; Python builds a `set`, modelled by `dedup`). -/
def video_features (v : Video) : List String :=
  (tokenize_text v.tags ++ tokenize_text v.description).dedup

/-- Global vocabulary: distinct tokens of all posts' keyword fields
(lines 163-173). -/
def post_keywords_of (db : DB) : List String :=
  (db.posts.flatMap (fun p => tokenize_text p.keywords)).dedup

/-- Follow map grouped in insertion order (`setdefault`/`append`,
lines 191-199). -/
def user_follows_map_of (db : DB) : List (ℕ × List ℕ) :=
  ((db.follows.map Prod.fst).dedup).map
    (fun u => (u, (db.follows.filter (fun f => f.1 == u)).map Prod.snd))

def id_to_idx (l : List ℕ) : List (ℕ × ℕ) := l.enum.map (fun p => (p.2, p.1))

def idx_to_id (l : List ℕ) : List (ℕ × ℕ) := l.enum

section Build

variable (K : Type) [Zero K] [One K] [Add K] [Neg K] [Mul K] [Div K]
variable (sqrt : K → K) (ofZ : ℤ → K)

/-- Defaults pass of the builder (`utils.py` lines 175-189): every cache
key that is still `None` is replaced by its default; the default for the
similarity matrix is itself `None`, so that key is left unchanged. -/
def fill_defaults (c : Cache K) : Cache K :=
  { user_item_matrix_df := some (c.user_item_matrix_df.getD ([], [], [])),
    item_similarity_matrix := c.item_similarity_matrix,
    video_id_to_idx := some (c.video_id_to_idx.getD []),
    video_idx_to_id := some (c.video_idx_to_id.getD []),
    user_id_to_idx := some (c.user_id_to_idx.getD []),
    user_idx_to_id := some (c.user_idx_to_id.getD []),
    video_features_map := some (c.video_features_map.getD []),
    all_post_keywords := some (c.all_post_keywords.getD []),
    user_follows_map := some (c.user_follows_map.getD []) }

/-- The builder (`build_interaction_data_and_matrices`).  Returns the new
cache and whether any (re)build work was performed (`false` exactly on the
early cache-hit return of lines 86-94; the inner empty-frame special case
there is unreachable because `cf_cache_is_valid` already requires a
non-`None` similarity matrix). -/
def build_interaction_data_and_matrices
    (force : Bool) (db : DB) (c : Cache K) : Cache K × Bool :=
  let cfValid := !force && c.user_item_matrix_df.isSome && c.item_similarity_matrix.isSome &&
    c.video_id_to_idx.isSome && c.video_idx_to_id.isSome &&
    c.user_id_to_idx.isSome && c.user_idx_to_id.isSome
  let contentValid := !force && c.video_features_map.isSome && c.all_post_keywords.isSome
  let followValid := !force && c.user_follows_map.isSome
  if cfValid && contentValid && followValid then (c, false)
  else
    let c0 := if force then Cache.empty K else c
    let c1 :=
      if force || !cfValid || c0.user_item_matrix_df.isNone then
        if db.interactions.isEmpty then
          { c0 with user_item_matrix_df := some ([], [], []),
                    item_similarity_matrix := none,
                    video_id_to_idx := some [], video_idx_to_id := some [],
                    user_id_to_idx := some [], user_idx_to_id := some [] }
        else
          let nz := nz_interaction_list db
          if nz.isEmpty then
            { c0 with user_item_matrix_df := some ([], [], []),
                      item_similarity_matrix := none }
          else
            let uids := cf_user_ids db
            let vids := cf_video_ids db
            { c0 with
              user_item_matrix_df := some (uids, vids, pivot_rows nz uids vids),
              user_id_to_idx := some (id_to_idx uids),
              user_idx_to_id := some (idx_to_id uids),
              video_id_to_idx := some (id_to_idx vids),
              video_idx_to_id := some (idx_to_id vids),
              item_similarity_matrix := some (sim_rows K sqrt ofZ nz uids vids) }
      else c0
    let c2 :=
      if force || c1.video_features_map.isNone then
        { c1 with
          video_features_map := some (db.videos.map (fun v => (v.id, video_features v))) }
      else c1
    let c3 :=
      if force || c2.all_post_keywords.isNone then
        { c2 with all_post_keywords := some (post_keywords_of db) }
      else c2
    let c4 := fill_defaults K c3
    let c5 :=
      if force || c4.user_follows_map.isNone then
        { c4 with user_follows_map := some (user_follows_map_of db) }
      else c4
    (c5, true)

end Build

/-! ### Feed items (`{'type': ..., 'id': ..., 'object': ...}` dicts) -/

inductive FeedItem where
  | post (p : Post)
  | video (v : Video)
  | ad (a : Ad)
deriving DecidableEq, Repr

def FeedItem.isAd : FeedItem → Bool
  | .ad _ => true
  | _ => false

/-- Identity of a feed entry: its `(item_type, item_id)` pair, with the
type tag encoded as 0 = post, 1 = video, 2 = ad. -/
def FeedItem.key : FeedItem → ℕ × ℕ
  | .post p => (0, p.id)
  | .video v => (1, v.id)
  | .ad a => (2, a.id)

/-! ### Posts section (`get_recommendations_for_user`, lines 206-248) -/

def user_exists (db : DB) (uid : ℕ) : Bool := db.users.any (fun u => u.id == uid)

def is_superuser_author (db : DB) (p : Post) : Bool :=
  db.users.any (fun u => u.id == p.user_id && u.is_superuser)

/-- Superuser posts ordered by `-created_at` (newest first, stable). -/
def superuser_posts_qs (db : DB) : List Post :=
  sortBy (fun p q => decide (q.created_at ≤ p.created_at))
    (db.posts.filter (is_superuser_author db))

/-- Step 1: superuser posts added up to the limit, skipping the requesting
user's own posts when that user exists (lines 221-231). -/
def superuser_posts_taken (db : DB) (uid n : ℕ) : List Post :=
  ((superuser_posts_qs db).filter
    (fun p => !(user_exists db uid && p.user_id == uid))).take n

/-- Remaining posts queryset of step 2: all posts except the already-added
ids and (when the user exists) the user's own, newest first. -/
def other_posts_qs (db : DB) (uid : ℕ) (added : List ℕ) : List Post :=
  sortBy (fun p q => decide (q.created_at ≤ p.created_at))
    (db.posts.filter
      (fun p => !added.contains p.id && !(user_exists db uid && p.user_id == uid)))

/-- Step 2 loop (lines 242-247): append while below the limit, re-checking
the accumulated id set. -/
def take_new_posts : ℕ → List ℕ → List Post → List Post
  | 0, _, _ => []
  | _, _, [] => []
  | n + 1, added, p :: ps =>
    if added.contains p.id then take_new_posts (n + 1) added ps
    else p :: take_new_posts n (p.id :: added) ps

def posts_section (db : DB) (uid n : ℕ) : List Post :=
  let su := superuser_posts_taken db uid n
  let added := su.map Post.id
  if su.length < n then su ++ take_new_posts (n - su.length) added (other_posts_qs db uid added)
  else su

/-! ### Video section: CF path and fallback (lines 251-438) -/

/-- Comparison treating `none` as `-∞` (the masked value in the source). -/
def optLe {K : Type} (kle : K → K → Bool) : Option K → Option K → Bool
  | none, _ => true
  | some _, none => false
  | some x, some y => kle x y

section Pipeline2

variable (K : Type) [Zero K] [One K] [Add K] [Neg K] [Mul K] [Div K]
variable (kle : K → K → Bool) (sqrt : K → K) (ofZ : ℤ → K)

/-- Lines 258-260: a missing user-item frame or similarity matrix triggers
a forced rebuild before the video logic runs. -/
def ensured_cache (db : DB) (c : Cache K) : Cache K :=
  if c.user_item_matrix_df.isNone || c.item_similarity_matrix.isNone then
    (build_interaction_data_and_matrices K sqrt ofZ true db c).1
  else c

/-- Collection loop of lines 386-390: walk the ranked indices, skip masked
(`-∞`) entries and indices without a (truthy) video id, stop once enough
ids are collected. -/
def collect_cf_ids (i2v : List (ℕ × ℕ)) (masked : ℕ → Option K) :
    ℕ → List ℕ → List ℕ
  | _, [] => []
  | 0, _ => []
  | n + 1, i :: rest =>
    match masked i with
    | none => collect_cf_ids i2v masked (n + 1) rest
    | some _ =>
      match alookup i2v i with
      | some vid =>
        if vid == 0 then collect_cf_ids i2v masked (n + 1) rest
        else if n = 0 then [vid]
        else vid :: collect_cf_ids i2v masked n rest
      | none => collect_cf_ids i2v masked (n + 1) rest

/-- Pure-CF aggregation loop of lines 352-358: starting from a zero
vector, add `similarity_row × user_score` for every materially interacted
index (entries `≥ num_cf_videos` are skipped as in line 355). -/
def aggregated_scores (interacted : List ℕ) (vec : ℕ → ℤ)
    (simEntry : ℕ → ℕ → K) (m : ℕ) : ℕ → K :=
  interacted.foldl
    (fun acc j => if m ≤ j then acc else fun i => acc i + simEntry j i * ofZ (vec j))
    (fun _ => 0)

/-- Keyword/follow boost of lines 360-380 applied on top of the pure-CF
aggregate. -/
def boosted_scores (db : DB) (fmap : List (ℕ × List String)) (kwSet : List String)
    (followed : List ℕ) (i2v : List (ℕ × ℕ)) (agg : ℕ → K) : ℕ → K :=
  fun i =>
    match alookup i2v i with
    | none => agg i
    | some vid =>
      let kwBoost : K :=
        match alookup fmap vid with
        | some feats =>
          let nMatches := (feats.dedup.filter (fun t => kwSet.contains t)).length
          if nMatches > 0 then ofZ 1 / ofZ 10 * ofZ (nMatches : ℤ) else 0
        | none => 0
      let upBoost : K :=
        match (db.videos.find? (fun v => v.id == vid)).map Video.uploader_id with
        | some up => if up != 0 && followed.contains up then ofZ 1 / ofZ 2 else 0
        | none => 0
      if !kle (kwBoost + upBoost) 0 then
        agg i + (kwBoost + upBoost) * (1 + (if kle 0 (agg i) then agg i else -(agg i)))
      else agg i

/-- Fallback scorer (`get_fallback_video_recommendations`,
lines 283-336). -/
def fallback_score (db : DB) (fmap : List (ℕ × List String)) (kwSet : List String)
    (followed : List ℕ) (v : Video) : K :=
  let vkw := ((alookup fmap v.id).getD []).dedup
  let nMatches := (vkw.filter (fun t => kwSet.contains t)).length
  let s1 : K := if nMatches > 0 then 0 + ofZ 1 / ofZ 10 * ofZ (nMatches : ℤ) else 0
  let s2 : K := if followed.contains v.uploader_id then s1 + ofZ 1 / ofZ 2 * (1 + s1) else s1
  match v.source_post with
  | some pid =>
    match db.posts.find? (fun p => p.id == pid) with
    | some p =>
      s2 + ofZ p.view_count * (ofZ 1 / ofZ 5) + ofZ p.watch_time * (ofZ 1 / ofZ 10)
        + ofZ (p.likes : ℤ) * (ofZ 3 / ofZ 10) + ofZ (p.comments : ℤ) * (ofZ 1 / ofZ 4)
    | none => s2
  | none => s2

def get_fallback_video_recommendations (db : DB) (fmap : List (ℕ × List String))
    (kwSet : List String) (followsMap : List (ℕ × List ℕ))
    (num_recs : ℕ) (uidf : ℕ) (excluded : List ℕ) : List Video :=
  let followed := (alookup followsMap uidf).getD []
  let vids0 := sortBy (fun v w => decide (w.upload_timestamp ≤ v.upload_timestamp))
    (db.videos.filter (fun v => !excluded.contains v.id))
  if vids0.isEmpty then []
  else
    let scored := vids0.map (fun v => (v, fallback_score K ofZ db fmap kwSet followed v))
    ((sortBy (fun x y => kle y.2 x.2) scored).map Prod.fst).take num_recs

/-- Appending loop of lines 428-434: add fallback videos while below the
limit, skipping ids already packaged. -/
def append_fallback (limit : ℕ) : List Video → List Video → List Video
  | packaged, [] => packaged
  | packaged, v :: vs =>
    if packaged.length < limit then
      if packaged.any (fun r => r.id == v.id) then append_fallback limit packaged vs
      else append_fallback limit (packaged ++ [v]) vs
    else packaged

/-- Interacted video ids used to exclude items from the fallback
(lines 413-422): the ids at indices whose score exceeds `0.1`. -/
def fallback_excluded (rows : List (List ℤ)) (u2i i2v : List (ℕ × ℕ))
    (user_id : ℕ) : List ℕ :=
  match alookup u2i user_id with
  | some uidx =>
    if uidx < rows.length then
      let row := rows.getD uidx []
      (((List.range row.length).filter
          (fun j => !kle (ofZ (row.getD j 0)) (ofZ 1 / ofZ 10))).filterMap
        (fun j => alookup i2v j)).filter (fun vid => vid != 0)
    else []
  | none => []

/-- CF part of the video logic (lines 338-394): when the CF data is
usable and the user is warm, aggregate, boost, mask, rank and collect up
to `needed` video objects. -/
def cf_section (db : DB) (c' : Cache K) (user_id needed : ℕ) : List Video :=
  let df := c'.user_item_matrix_df.getD ([], [], [])
  let uids := df.1
  let vids := df.2.1
  let rows := df.2.2
  let simOpt := c'.item_similarity_matrix
  let v2i := c'.video_id_to_idx.getD []
  let i2v := c'.video_idx_to_id.getD []
  let u2i := c'.user_id_to_idx.getD []
  let fmap := c'.video_features_map.getD []
  let kwSet := (c'.all_post_keywords.getD []).dedup
  let followsMap := c'.user_follows_map.getD []
  let canCF := !(uids.isEmpty || vids.isEmpty) && simOpt.isSome &&
    !v2i.isEmpty && !i2v.isEmpty && !u2i.isEmpty
  if canCF && (alookup u2i user_id).isSome then
    match alookup u2i user_id with
    | some uidx =>
      if uidx < rows.length then
        let row := rows.getD uidx []
        let vec : ℕ → ℤ := fun j => row.getD j 0
        let interacted := (List.range row.length).filter
          (fun j => !kle (ofZ (vec j)) (ofZ 1 / ofZ 10))
        if !interacted.isEmpty then
          let simRows := simOpt.getD []
          let m := simRows.length
          let simEntry : ℕ → ℕ → K := fun j i => (simRows.getD j []).getD i 0
          let agg := aggregated_scores K ofZ interacted vec simEntry m
          let followed := (alookup followsMap user_id).getD []
          let boosted := boosted_scores K kle ofZ db fmap kwSet followed i2v agg
          let masked : ℕ → Option K :=
            fun i => if interacted.contains i then none else some (boosted i)
          let order := sortBy (fun i j => optLe kle (masked j) (masked i)) (List.range m)
          let temp := collect_cf_ids K i2v masked needed order
          temp.filterMap (fun vid => db.videos.find? (fun v => v.id == vid))
        else []
      else []
    | none => []
  else []

/-- Video part of the feed (lines 255-438), producing at most `needed`
videos: CF recommendations when the user is warm, topped up from the
fallback. -/
def videos_section (db : DB) (c : Cache K) (user_id needed : ℕ) : List Video :=
  let c' := ensured_cache K sqrt ofZ db c
  let df := c'.user_item_matrix_df.getD ([], [], [])
  let rows := df.2.2
  let i2v := c'.video_idx_to_id.getD []
  let u2i := c'.user_id_to_idx.getD []
  let fmap := c'.video_features_map.getD []
  let kwSet := (c'.all_post_keywords.getD []).dedup
  let followsMap := c'.user_follows_map.getD []
  let packaged := (cf_section K kle ofZ db c' user_id needed).take needed
  let numFallback := needed - packaged.length
  let excl := fallback_excluded K kle ofZ rows u2i i2v user_id
  if numFallback > 0 then
    append_fallback needed packaged
      (get_fallback_video_recommendations K kle ofZ db fmap kwSet followsMap
        numFallback user_id excl)
  else packaged

end Pipeline2

/-! ### Ad selection and injection (`get_recommendations_for_user`,
lines 440-498) -/

/-- DateTime-targeting check of lines 450-459.  With both bounds present
the source tests `start <= now <= end` (a closed interval); a missing
bound leaves that side unbounded. -/
def ad_time_ok (a : Ad) (now : ℤ) : Bool :=
  match a.target_time_of_day_start, a.target_time_of_day_end with
  | some s, some e => decide (s ≤ now) && decide (now ≤ e)
  | some s, none => !decide (now < s)
  | none, some e => !decide (now > e)
  | none, none => true

/-- Count of impression rows for this ad, user and the current date
(lines 462-466). -/
def impressions_today (db : DB) (ad_id uid : ℕ) (now : ℤ) : ℕ :=
  (db.ad_impressions.filter
    (fun im => im.ad_id == ad_id && im.user_id == uid && im.impression_date == dateOf now)).length

/-- Eligibility of a single ad for this request: `live` status, the
time-window check, and the per-day frequency cap of 3 (lines 442-469). -/
def ad_eligible (db : DB) (a : Ad) (now : ℤ) (uid : ℕ) : Bool :=
  a.status == "live" && ad_time_ok a now && impressions_today db a.id uid now < 3

/-- The candidate ads of this request, before the random shuffle
(lines 442-471). -/
def candidate_ads (db : DB) (now : ℤ) (uid : ℕ) : List Ad :=
  db.ads.filter (fun a => ad_eligible db a now uid)

/-- Injection loop of lines 477-493: after every `interval`-th organic
item, splice in the next candidate ad and redraw the interval.  `ivals`
is the stream of `random.randint(7, 10)` draws (`ivals 0` is the first
draw, line 477). -/
def inject_aux : List FeedItem → List Ad → (ℕ → ℕ) → ℕ → ℕ → ℕ → ℕ → List FeedItem
  | [], _, _, _, _, _, _ => []
  | it :: rest, ads, ivals, i, interval, draw, adIdx =>
    if (i + 1) % interval == 0 && adIdx < ads.length then
      match ads.get? adIdx with
      | some a =>
        it :: FeedItem.ad a :: inject_aux rest ads ivals (i + 1) (ivals draw) (draw + 1) (adIdx + 1)
      | none => it :: inject_aux rest ads ivals (i + 1) interval draw adIdx
    else it :: inject_aux rest ads ivals (i + 1) interval draw adIdx

def inject_ads (items : List FeedItem) (ads : List Ad) (ivals : ℕ → ℕ) : List FeedItem :=
  inject_aux items ads ivals 0 (ivals 0) 1 0

section Main

variable (K : Type) [Zero K] [One K] [Add K] [Neg K] [Mul K] [Div K]
variable (kle : K → K → Bool) (sqrt : K → K) (ofZ : ℤ → K)

/-- The public entry point (`get_recommendations_for_user`,
`recommender/utils.py` lines 206-502).  `shuffle` stands for
`random.shuffle` (an arbitrary permutation chosen by the caller's random
state) and `ivals` for the stream of `random.randint(7, 10)` draws.  The
second component is the list of `AdImpression` rows created by the call:
it is `[]` because this code path performs no impression write (the only
impression-creating code in the repository is
`TrackAdImpressionAPIView`, modelled by `track_ad_impression` below). -/
def get_recommendations_for_user (db : DB) (cache : Cache K) (now : ℤ)
    (shuffle : List Ad → List Ad) (ivals : ℕ → ℕ)
    (user_id num_recommendations : ℕ) : List FeedItem × List AdImpression :=
  let posts := posts_section db user_id num_recommendations
  let items0 := posts.map FeedItem.post
  let needed := num_recommendations - items0.length
  let items :=
    if needed > 0 then
      items0 ++ (videos_section K kle sqrt ofZ db cache user_id needed).map FeedItem.video
    else items0
  let cands := shuffle (candidate_ads db now user_id)
  let final := if items.isEmpty then items else inject_ads items cands ivals
  (final.take num_recommendations, [])

end Main

/-- Impression tracker (`TrackAdImpressionAPIView` in `ads/views.py`,
lines 322-341): `get_or_create` one `AdImpression` row for
(ad, user, today); returns the updated store and whether a row was
created. -/
def track_ad_impression (db : DB) (ad_id uid : ℕ) (now : ℤ) : DB × Bool :=
  if db.ad_impressions.any
      (fun im => im.ad_id == ad_id && im.user_id == uid && im.impression_date == dateOf now) then
    (db, false)
  else
    ({ db with ad_impressions := db.ad_impressions ++ [⟨ad_id, uid, dateOf now⟩] }, true)

/-! ### Spec-side definitions

These two definitions follow the specification's words (not the source);
they exist only to state refutations of spec claims against the embedded
source behaviour. -/

/-- Spec-worded eligibility: the claim's half-open time window
`[target_start, target_end)` with a missing bound unbounded on that side,
plus `live` status and the frequency cap. -/
def spec_half_open_eligible (db : DB) (a : Ad) (now : ℤ) (uid : ℕ) : Bool :=
  a.status == "live" &&
  (match a.target_time_of_day_start with
   | some s => decide (s ≤ now)
   | none => true) &&
  (match a.target_time_of_day_end with
   | some e => decide (now < e)
   | none => true) &&
  impressions_today db a.id uid now < 3

/-- Splitting a character list at commas (`str.split(',')`). -/
def splitCommaAux : List Char → List Char → List (List Char)
  | [], acc => [acc.reverse]
  | c :: rest, acc =>
    if c == ',' then acc.reverse :: splitCommaAux rest []
    else splitCommaAux rest (c :: acc)

/-- Stripping leading and trailing whitespace (`str.strip()`). -/
def stripChars (cs : List Char) : List Char :=
  ((cs.dropWhile Char.isWhitespace).reverse.dropWhile Char.isWhitespace).reverse

/-- Comma-separated keyword token list of an ad (`Ad.save` in
`ads/models.py` splits on commas, strips whitespace, drops empties). -/
def ad_keyword_tokens (a : Ad) : List String :=
  ((((splitCommaAux a.keywords.toList []).map stripChars).filter
    (fun t => !t.isEmpty)).map List.asString)

/-- Spec-worded ad similarity: sum of the user's interest-profile weights
over tokens present in the ad's keyword list. -/
def spec_ad_interest_similarity (db : DB) (uid : ℕ) (a : Ad) : Frac :=
  let profile := (alookup db.interest_profiles uid).getD []
  ((ad_keyword_tokens a).map
    (fun t => (profile.find? (fun p => p.1 == t)).elim (0 : Frac) Prod.snd)).foldl
    (· + ·) 0

/-! ### Claim C2: interaction score weights -/

/-- C2: for every interaction record the derived score is exactly the
weighted sum +1 (watch > 60s), +1 more (watch > 300s), +2 (completed),
+3 (liked), −2 (explicit dislike), +2 (shared), +3 (commented). -/
theorem C2_interaction_score_is_weighted_sum (r : UserVideoInteraction) :
    interaction_score r =
      (if r.watch_time_seconds > 60 then (1 : ℤ) else 0)
      + (if r.watch_time_seconds > 300 then 1 else 0)
      + (if r.completed_watch then 2 else 0)
      + (if r.liked = some true then 3 else 0)
      - (if r.liked = some false then 2 else 0)
      + (if r.shared then 2 else 0)
      + (if r.commented then 3 else 0) := by
  unfold interaction_score
  split_ifs <;> ring

/-! ### Claim C4: ad eligibility (time window and frequency cap) -/

def db4 : DB :=
  { users := [⟨7, false⟩], posts := [], videos := [], interactions := [], follows := [],
    ads := [⟨60, "live", "", some 0, some 100⟩],
    ad_impressions := [], interest_profiles := [] }

/-- C4 counterexample: at `now = target_time_of_day_end` the source still
serves the ad (its window test is `start <= now <= end`, lines 450-453),
while the claim's half-open window `[start, end)` excludes it. -/
theorem C4_counterexample_window_end_inclusive :
    (⟨60, "live", "", some 0, some 100⟩ : Ad) ∈ candidate_ads db4 100 7 ∧
    spec_half_open_eligible db4 ⟨60, "live", "", some 0, some 100⟩ 100 7 = false := by
  decide

/-- C4 (amended): an ad is eligible iff its status is `live`, the current
time lies within the closed window `[target_time_of_day_start,
target_time_of_day_end]` (a missing bound is unbounded on that side), and
the count of impression records for this (ad, user) today is under 3; an
ad at or over the cap is excluded regardless of anything else. -/
theorem C4_ad_eligibility_closed_window (db : DB) (a : Ad) (now : ℤ) (uid : ℕ) :
    a ∈ candidate_ads db now uid ↔
      a ∈ db.ads ∧ a.status = "live" ∧
        (∀ s, a.target_time_of_day_start = some s → s ≤ now) ∧
        (∀ e, a.target_time_of_day_end = some e → now ≤ e) ∧
        impressions_today db a.id uid now < 3 := by
  unfold candidate_ads ad_eligible ad_time_ok
  rw [List.mem_filter]
  cases hs : a.target_time_of_day_start <;> cases he : a.target_time_of_day_end <;>
    simp [hs, he, and_assoc]

/-- C4 witness: the amended eligibility equivalence evaluated at a
concrete ad and store. -/
theorem C4_ad_eligibility_closed_window_witness :
    (⟨60, "live", "", some 0, some 100⟩ : Ad) ∈ candidate_ads db4 50 7 ↔
      (⟨60, "live", "", some 0, some 100⟩ : Ad) ∈ db4.ads ∧ "live" = "live" ∧
        (∀ s, (some (0 : ℤ)) = some s → s ≤ 50) ∧
        (∀ e, (some (100 : ℤ)) = some e → (50 : ℤ) ≤ e) ∧
        impressions_today db4 60 7 50 < 3 :=
  C4_ad_eligibility_closed_window db4 ⟨60, "live", "", some 0, some 100⟩ 50 7

/-! ### Claim C5: no interest-similarity ranking of ads -/

def db5 : DB :=
  { users := [⟨7, false⟩], posts := [], videos := [], interactions := [], follows := [],
    ads := [⟨61, "live", "travel, japan", none, none⟩, ⟨62, "live", "cooking", none, none⟩],
    ad_impressions := [],
    interest_profiles := [(7, [("travel", ⟨2, 1⟩)])] }

/-- C5 counterexample: with a user whose interest profile weights
`travel` at 2.0, an eligible ad with zero keyword overlap stays a
candidate even though another eligible ad has positive spec-similarity —
the source (lines 442-473) computes no similarity and excludes
nothing. -/
theorem C5_counterexample_zero_similarity_not_excluded :
    (⟨62, "live", "cooking", none, none⟩ : Ad) ∈ candidate_ads db5 0 7 ∧
    spec_ad_interest_similarity db5 7 ⟨62, "live", "cooking", none, none⟩ = Frac.ofInt 0 ∧
    spec_ad_interest_similarity db5 7 ⟨61, "live", "travel, japan", none, none⟩ =
      Frac.ofInt 2 := by
  decide

/-- C5 (amended): the ad selector computes no similarity score at all:
candidate selection depends only on status, time window and frequency
cap — it is independent of the ad's keywords and of every user's interest
profile — and all eligible ads (zero-overlap ones included) are candidates,
served in shuffled order. -/
theorem C5_no_similarity_ranking :
    (∀ (db : DB) (now : ℤ) (uid : ℕ) (prof : List (ℕ × List (String × Frac))),
      candidate_ads { db with interest_profiles := prof } now uid =
        candidate_ads db now uid) ∧
    (∀ (db : DB) (a : Ad) (now : ℤ) (uid : ℕ) (kw : String),
      ad_eligible db { a with keywords := kw } now uid = ad_eligible db a now uid) ∧
    ((⟨61, "live", "travel, japan", none, none⟩ : Ad) ∈ candidate_ads db5 0 7 ∧
     (⟨62, "live", "cooking", none, none⟩ : Ad) ∈ candidate_ads db5 0 7) := by
  refine ⟨fun db now uid prof => rfl, fun db a now uid kw => rfl, ?_⟩
  decide

/-! ### Claim C6: no impression record is written by the recommender -/

theorem impressions_today_eq_zero_iff (db : DB) (ad_id uid : ℕ) (now : ℤ) :
    impressions_today db ad_id uid now = 0 ↔
      db.ad_impressions.any
        (fun im => im.ad_id == ad_id && im.user_id == uid && im.impression_date == dateOf now)
        = false := by
  unfold impressions_today
  rw [List.length_eq_zero, List.filter_eq_nil_iff, List.any_eq_false]

def db6 : DB :=
  { users := [⟨1, false⟩, ⟨2, true⟩],
    posts :=
      [⟨101, 2, "", 1, 0, 0, 0, 0⟩, ⟨102, 2, "", 2, 0, 0, 0, 0⟩, ⟨103, 2, "", 3, 0, 0, 0, 0⟩,
       ⟨104, 2, "", 4, 0, 0, 0, 0⟩, ⟨105, 2, "", 5, 0, 0, 0, 0⟩, ⟨106, 2, "", 6, 0, 0, 0, 0⟩,
       ⟨107, 2, "", 7, 0, 0, 0, 0⟩],
    videos := [], interactions := [], follows := [],
    ads := [⟨50, "live", "", none, none⟩],
    ad_impressions := [], interest_profiles := [] }

/-- C6 counterexample: a request that does select and display ad 50 in
the returned feed creates no impression record — `get_recommendations_for_user`
(lines 475-498) contains no impression write; rows are only created by the
separate `TrackAdImpressionAPIView` endpoint. -/
theorem C6_counterexample_ad_shown_without_impression :
    ((get_recommendations_for_user F2 F2.le F2.sqrt F2.ofInt db6 (Cache.empty F2) 0 id
        (fun _ => 7) 1 10).1.filter FeedItem.isAd
      = [FeedItem.ad ⟨50, "live", "", none, none⟩]) ∧
    (get_recommendations_for_user F2 F2.le F2.sqrt F2.ofInt db6 (Cache.empty F2) 0 id
        (fun _ => 7) 1 10).2 = [] := by
  decide

/-- C6 (amended): selecting an ad for display in a recommendation
response creates no impression record; impression records are created
only by the separate impression-tracking endpoint, which on a request for
(ad, user, today) creates a row exactly when none exists yet, after which
the day's count is `max 1` of its previous value and a repeated call
creates nothing. -/
theorem C6_no_impression_side_effect :
    (∀ (K : Type) [Zero K] [One K] [Add K] [Neg K] [Mul K] [Div K]
      (kle : K → K → Bool) (sqrt : K → K) (ofZ : ℤ → K)
      (db : DB) (cache : Cache K) (now : ℤ) (shuffle : List Ad → List Ad)
      (ivals : ℕ → ℕ) (uid n : ℕ),
      (get_recommendations_for_user K kle sqrt ofZ db cache now shuffle ivals uid n).2 = []) ∧
    (∀ (db : DB) (ad_id uid : ℕ) (now : ℤ),
      (track_ad_impression db ad_id uid now).2 = true ↔
        impressions_today db ad_id uid now = 0) ∧
    (∀ (db : DB) (ad_id uid : ℕ) (now : ℤ),
      impressions_today (track_ad_impression db ad_id uid now).1 ad_id uid now =
        max 1 (impressions_today db ad_id uid now)) ∧
    (∀ (db : DB) (ad_id uid : ℕ) (now : ℤ),
      (track_ad_impression (track_ad_impression db ad_id uid now).1 ad_id uid now).2 =
        false) := by
  refine ⟨fun _ _ _ _ _ _ _ _ _ _ _ _ _ _ _ _ _ => rfl, ?_, ?_, ?_⟩
  · intro db ad_id uid now
    rw [impressions_today_eq_zero_iff]
    unfold track_ad_impression
    cases h : db.ad_impressions.any
        (fun im => im.ad_id == ad_id && im.user_id == uid && im.impression_date == dateOf now) <;>
      simp [h]
  · intro db ad_id uid now
    unfold track_ad_impression
    cases h : db.ad_impressions.any
        (fun im => im.ad_id == ad_id && im.user_id == uid && im.impression_date == dateOf now)
    · have hz : impressions_today db ad_id uid now = 0 :=
        (impressions_today_eq_zero_iff db ad_id uid now).mpr h
      simp only [h, Bool.false_eq_true, if_false]
      unfold impressions_today at hz ⊢
      rw [List.filter_append, List.length_append, hz]
      simp
    · have hpos : 0 < impressions_today db ad_id uid now := by
        rcases List.any_eq_true.mp h with ⟨im, him, hpred⟩
        exact List.length_pos.mpr (List.ne_nil_of_mem (List.mem_filter.mpr ⟨him, hpred⟩))
      simp only [h, if_true]
      omega
  · intro db ad_id uid now
    unfold track_ad_impression
    cases h : db.ad_impressions.any
        (fun im => im.ad_id == ad_id && im.user_id == uid && im.impression_date == dateOf now) <;>
      simp [h]

/-- C6 witness: the amended statement applied at a concrete store and
request. -/
theorem C6_no_impression_side_effect_witness :
    (get_recommendations_for_user F2 F2.le F2.sqrt F2.ofInt db6 (Cache.empty F2) 0 id
        (fun _ => 7) 1 10).2 = [] ∧
    ((track_ad_impression db6 50 1 0).2 = true ↔ impressions_today db6 50 1 0 = 0) ∧
    (track_ad_impression (track_ad_impression db6 50 1 0).1 50 1 0).2 = false :=
  ⟨C6_no_impression_side_effect.1 F2 F2.le F2.sqrt F2.ofInt db6 (Cache.empty F2) 0 id
      (fun _ => 7) 1 10,
   C6_no_impression_side_effect.2.1 db6 50 1 0,
   C6_no_impression_side_effect.2.2.2 db6 50 1 0⟩

/-! ### Claim C7: cache refresh -/

def db7 : DB :=
  { users := [], posts := [], videos := [], interactions := [],
    follows := [(1, 2)], ads := [], ad_impressions := [], interest_profiles := [] }

def db7w : DB :=
  { users := [⟨1, false⟩], posts := [], videos := [⟨10, 1, "", "", 0, none⟩],
    interactions := [⟨1, 10, 0, some true, false, false, false⟩],
    follows := [], ads := [], ad_impressions := [], interest_profiles := [] }

/-- Helper: a fully populated cache makes a non-forced build a no-op
(the early return of lines 86-94). -/
theorem build_noop_of_all_isSome (K : Type) [Zero K] [One K] [Add K] [Neg K] [Mul K] [Div K]
    (sqrt : K → K) (ofZ : ℤ → K) (db : DB) (c : Cache K)
    (h1 : c.user_item_matrix_df.isSome) (h2 : c.item_similarity_matrix.isSome)
    (h3 : c.video_id_to_idx.isSome) (h4 : c.video_idx_to_id.isSome)
    (h5 : c.user_id_to_idx.isSome) (h6 : c.user_idx_to_id.isSome)
    (h7 : c.video_features_map.isSome) (h8 : c.all_post_keywords.isSome)
    (h9 : c.user_follows_map.isSome) :
    build_interaction_data_and_matrices K sqrt ofZ false db c = (c, false) := by
  unfold build_interaction_data_and_matrices
  simp [h1, h2, h3, h4, h5, h6, h7, h8, h9]

/-- Helper: the exact cache produced by a non-forced build from the empty
cache when some nonzero-score interaction exists. -/
theorem build_from_empty_shape (K : Type) [Zero K] [One K] [Add K] [Neg K] [Mul K] [Div K]
    (sqrt : K → K) (ofZ : ℤ → K) (db : DB)
    (hi : db.interactions ≠ []) (hnz : nz_interaction_list db ≠ []) :
    (build_interaction_data_and_matrices K sqrt ofZ false db (Cache.empty K)).1 =
      { user_item_matrix_df := some (cf_user_ids db, cf_video_ids db,
          pivot_rows (nz_interaction_list db) (cf_user_ids db) (cf_video_ids db)),
        item_similarity_matrix := some (sim_rows K sqrt ofZ (nz_interaction_list db)
          (cf_user_ids db) (cf_video_ids db)),
        video_id_to_idx := some (id_to_idx (cf_video_ids db)),
        video_idx_to_id := some (idx_to_id (cf_video_ids db)),
        user_id_to_idx := some (id_to_idx (cf_user_ids db)),
        user_idx_to_id := some (idx_to_id (cf_user_ids db)),
        video_features_map := some (db.videos.map (fun v => (v.id, video_features v))),
        all_post_keywords := some (post_keywords_of db),
        user_follows_map := some [] } := by
  have hi0 : db.interactions.isEmpty = false := by
    cases h : db.interactions with
    | nil => exact absurd h hi
    | cons a l => rfl
  have hnz0 : (nz_interaction_list db).isEmpty = false := by
    cases h : nz_interaction_list db with
    | nil => exact absurd h hnz
    | cons a l => rfl
  unfold build_interaction_data_and_matrices
  simp [Cache.empty, hi0, hnz0, fill_defaults]

/-- C7 counterexample.  `db7` has one follow edge and no interactions.
First, a non-forced build from the empty cache leaves the follow-map
sub-state at its empty default `{}` instead of building `{1: [2]}` from
the edge (the defaults pass of lines 175-189 runs before the follow-map
step of lines 191-199 and destroys its `None` trigger).  Second, calling
the build twice in a row with no data change still performs work on the
second call: with no interactions the similarity matrix stays `None`, so
the CF sub-state is re-fetched and rebuilt every time. -/
theorem C7_counterexample_follow_map_and_recompute :
    db7.follows = [(1, 2)] ∧
    user_follows_map_of db7 = [(1, [2])] ∧
    (build_interaction_data_and_matrices F2 F2.sqrt F2.ofInt false db7
      (Cache.empty F2)).1.user_follows_map = some [] ∧
    (build_interaction_data_and_matrices F2 F2.sqrt F2.ofInt false db7
      ((build_interaction_data_and_matrices F2 F2.sqrt F2.ofInt false db7
        (Cache.empty F2)).1)).2 = true := by
  decide

/-- C7 (amended): a non-forced build is a no-op exactly when every cached
sub-state (the similarity matrix included) is present; in particular, when
the data contains at least one nonzero-score interaction, the second of
two consecutive non-forced builds performs no recomputation.  An absent
follow-map sub-state, however, is not rebuilt from the follow edges: a
non-forced build from the empty cache always leaves it at the empty
default (it is only built from edges under `force`). -/
theorem C7_cache_refresh_behaviour :
    (∀ (K : Type) [Zero K] [One K] [Add K] [Neg K] [Mul K] [Div K]
      (sqrt : K → K) (ofZ : ℤ → K) (db : DB) (c : Cache K),
      c.user_item_matrix_df.isSome → c.item_similarity_matrix.isSome →
      c.video_id_to_idx.isSome → c.video_idx_to_id.isSome →
      c.user_id_to_idx.isSome → c.user_idx_to_id.isSome →
      c.video_features_map.isSome → c.all_post_keywords.isSome →
      c.user_follows_map.isSome →
      build_interaction_data_and_matrices K sqrt ofZ false db c = (c, false)) ∧
    (∀ (K : Type) [Zero K] [One K] [Add K] [Neg K] [Mul K] [Div K]
      (sqrt : K → K) (ofZ : ℤ → K) (db : DB),
      db.interactions ≠ [] → nz_interaction_list db ≠ [] →
      build_interaction_data_and_matrices K sqrt ofZ false db
        ((build_interaction_data_and_matrices K sqrt ofZ false db (Cache.empty K)).1) =
        ((build_interaction_data_and_matrices K sqrt ofZ false db (Cache.empty K)).1,
          false)) ∧
    (∀ (K : Type) [Zero K] [One K] [Add K] [Neg K] [Mul K] [Div K]
      (sqrt : K → K) (ofZ : ℤ → K) (db : DB),
      (build_interaction_data_and_matrices K sqrt ofZ false db
        (Cache.empty K)).1.user_follows_map = some []) := by
  refine ⟨?_, ?_, ?_⟩
  · intro K _ _ _ _ _ _ sqrt ofZ db c h1 h2 h3 h4 h5 h6 h7 h8 h9
    exact build_noop_of_all_isSome K sqrt ofZ db c h1 h2 h3 h4 h5 h6 h7 h8 h9
  · intro K _ _ _ _ _ _ sqrt ofZ db hi hnz
    rw [build_from_empty_shape K sqrt ofZ db hi hnz]
    exact build_noop_of_all_isSome K sqrt ofZ db _ rfl rfl rfl rfl rfl rfl rfl rfl rfl
  · intro K _ _ _ _ _ _ sqrt ofZ db
    unfold build_interaction_data_and_matrices
    cases hI : db.interactions with
    | nil => rfl
    | cons a l =>
      cases hz : nz_interaction_list db with
      | nil => rfl
      | cons b m => rfl

/-- C7 witness: the amended behaviour evaluated on a concrete store with
one liked interaction. -/
theorem C7_cache_refresh_behaviour_witness :
    build_interaction_data_and_matrices F2 F2.sqrt F2.ofInt false db7w
      ((build_interaction_data_and_matrices F2 F2.sqrt F2.ofInt false db7w
        (Cache.empty F2)).1) =
      ((build_interaction_data_and_matrices F2 F2.sqrt F2.ofInt false db7w
        (Cache.empty F2)).1, false) ∧
    (build_interaction_data_and_matrices F2 F2.sqrt F2.ofInt false db7w
      (Cache.empty F2)).1.user_follows_map = some [] :=
  ⟨C7_cache_refresh_behaviour.2.1 F2 F2.sqrt F2.ofInt db7w (by decide) (by decide),
   C7_cache_refresh_behaviour.2.2 F2 F2.sqrt F2.ofInt db7w⟩

/-! ### Claim C1: pure-CF aggregation, masking, and the A/B–A/C scenario -/

/-- Helper: evaluating the aggregation fold of lines 352-358 pointwise. -/
theorem foldl_agg_eval (K : Type) [Zero K] [One K] [Add K] [Neg K] [Mul K] [Div K]
    (ofZ : ℤ → K)
    (hassoc : ∀ a b c : K, a + b + c = a + (b + c))
    (haz : ∀ a : K, a + 0 = a)
    (vec : ℕ → ℤ) (simEntry : ℕ → ℕ → K) (m : ℕ) :
    ∀ (interacted : List ℕ) (acc : ℕ → K) (i : ℕ), (∀ j ∈ interacted, j < m) →
      (interacted.foldl
        (fun acc j => if m ≤ j then acc else fun i => acc i + simEntry j i * ofZ (vec j))
        acc) i
        = acc i + (interacted.map (fun j => simEntry j i * ofZ (vec j))).foldr (· + ·) 0 := by
  intro l
  induction l with
  | nil =>
    intro acc i _
    exact (haz (acc i)).symm
  | cons j js ih =>
    intro acc i h
    have hj : j < m := h j (List.mem_cons_self j js)
    simp only [List.foldl_cons, List.map_cons, List.foldr_cons]
    rw [if_neg (not_le.mpr hj),
      ih (fun i => acc i + simEntry j i * ofZ (vec j)) i
        (fun x hx => h x (List.mem_cons_of_mem j hx))]
    exact hassoc _ _ _

/-- Helper: the id-collection loop of lines 386-390 never returns a video
id all of whose matrix indices are masked to `-∞`. -/
theorem collect_cf_ids_not_masked (K : Type) (i2v : List (ℕ × ℕ)) (masked : ℕ → Option K)
    (v : ℕ) (hv : ∀ i, alookup i2v i = some v → masked i = none) :
    ∀ (n : ℕ) (order : List ℕ), v ∉ collect_cf_ids K i2v masked n order := by
  intro n order
  induction order generalizing n with
  | nil =>
    cases n <;> simp [collect_cf_ids]
  | cons i rest ih =>
    cases n with
    | zero => simp [collect_cf_ids]
    | succ k =>
      unfold collect_cf_ids
      cases hm : masked i with
      | none => exact ih (k + 1)
      | some x =>
        cases hl : alookup i2v i with
        | none => exact ih (k + 1)
        | some vid =>
          have hne : v ≠ vid := by
            intro he
            rw [he] at hv
            exact absurd hm (by rw [hv i hl]; simp)
          by_cases hv0 : vid = 0
          · simp only [hv0, beq_self_eq_true, if_true]
            exact ih (k + 1)
          · simp only [show (vid == 0) = false from beq_eq_false_iff_ne.mpr hv0,
              Bool.false_eq_true, if_false]
            cases k with
            | zero => simp [hne]
            | succ k2 =>
              intro hmem
              rcases List.mem_cons.mp hmem with h1 | h1
              · exact hne h1
              · exact ih (k2 + 1) h1

def db1 : DB :=
  { users := [⟨1, false⟩, ⟨2, false⟩],
    posts := [],
    videos := [⟨10, 1, "", "", 0, none⟩, ⟨11, 1, "", "", 0, none⟩, ⟨12, 2, "", "", 0, none⟩],
    interactions :=
      [⟨1, 10, 0, some true, false, false, false⟩,
       ⟨1, 11, 0, some true, false, false, false⟩,
       ⟨2, 10, 0, some true, false, false, false⟩,
       ⟨2, 12, 0, some true, false, false, false⟩],
    follows := [], ads := [], ad_impressions := [], interest_profiles := [] }

/-- C1: (i) the pure-CF aggregate of each candidate item is the sum, over
every materially interacted item, of the user's score for that item times
that item's similarity-row entry (stated for any score type whose
addition is a commutative-monoid operation and whose multiplication
commutes, as exact float arithmetic is); (ii) a video id whose matrix
indices are all masked to `-∞` is never returned by the CF collection
loop; (iii) in `db1`, user 1 liked A(=10) and B(=11), user 2 liked A and
C(=12), there are no posts, and requesting 1 recommendation for user 1
returns exactly C; the `F2` square roots used by the cosine similarities
there (of the column norms 18 and 9) agree with the real square roots. -/
theorem C1_cf_aggregation_and_scenario :
    (∀ (K : Type) [Zero K] [One K] [Add K] [Neg K] [Mul K] [Div K] (ofZ : ℤ → K),
      (∀ a b c : K, a + b + c = a + (b + c)) →
      (∀ a : K, a + 0 = a) →
      (∀ a : K, 0 + a = a) →
      (∀ a b : K, a * b = b * a) →
      ∀ (interacted : List ℕ) (vec : ℕ → ℤ) (simEntry : ℕ → ℕ → K) (m : ℕ),
        (∀ j ∈ interacted, j < m) →
        ∀ i, aggregated_scores K ofZ interacted vec simEntry m i =
          (interacted.map (fun j => ofZ (vec j) * simEntry j i)).foldr (· + ·) 0) ∧
    (∀ (K : Type) (i2v : List (ℕ × ℕ)) (masked : ℕ → Option K) (v : ℕ),
      (∀ i, alookup i2v i = some v → masked i = none) →
      ∀ (n : ℕ) (order : List ℕ), v ∉ collect_cf_ids K i2v masked n order) ∧
    ((get_recommendations_for_user F2 F2.le F2.sqrt F2.ofInt db1 (Cache.empty F2) 0 id
        (fun _ => 7) 1 1).1 = [FeedItem.video ⟨12, 2, "", "", 0, none⟩] ∧
      F2.toReal (F2.sqrt (F2.ofInt 18)) = Real.sqrt 18 ∧
      F2.toReal (F2.sqrt (F2.ofInt 9)) = Real.sqrt 9) := by
  refine ⟨?_, ?_, ?_, ?_, ?_⟩
  · intro K _ _ _ _ _ _ ofZ hassoc haz hza hmul interacted vec simEntry m hm i
    unfold aggregated_scores
    rw [foldl_agg_eval K ofZ hassoc haz vec simEntry m interacted (fun _ => 0) i hm, hza]
    congr 1
    exact List.map_congr_left (fun j _ => hmul _ _)
  · intro K i2v masked v hv n order
    exact collect_cf_ids_not_masked K i2v masked v hv n order
  · decide
  · have e18 : F2.sqrt (F2.ofInt 18) = ⟨⟨0, 1⟩, ⟨6, 2⟩⟩ := by decide
    rw [e18]
    unfold F2.toReal Frac.toRat
    rw [show ((18 : ℝ)) = 3 ^ 2 * 2 by norm_num, Real.sqrt_mul (by positivity) 2,
      Real.sqrt_sq (by norm_num)]
    push_cast
    ring
  · have e9 : F2.sqrt (F2.ofInt 9) = ⟨⟨3, 1⟩, ⟨0, 1⟩⟩ := by decide
    rw [e9]
    unfold F2.toReal Frac.toRat
    rw [show ((9 : ℝ)) = 3 ^ 2 by norm_num, Real.sqrt_sq (by norm_num)]
    push_cast
    ring

/-- C1 witness: the aggregation identity and the masking guarantee
applied at concrete inputs over `F2`. -/
theorem C1_cf_aggregation_and_scenario_witness :
    (∀ i, aggregated_scores F2 F2.ofInt [0] (fun _ => 3) (fun _ _ => F2.ofInt 1) 1 i =
      (([0] : List ℕ).map
        (fun j => F2.ofInt ((fun _ => (3 : ℤ)) j) * (fun _ _ => F2.ofInt 1) j i)).foldr
        (· + ·) 0) ∧
    10 ∉ collect_cf_ids F2 [(0, 10)] (fun _ => (none : Option F2)) 1 [0] :=
  ⟨C1_cf_aggregation_and_scenario.1 F2 F2.ofInt F2.add_assocF F2.add_zero3 F2.zero_add3
      F2.mul_comm3 [0] (fun _ => 3) (fun _ _ => F2.ofInt 1) 1 (by decide),
   C1_cf_aggregation_and_scenario.2.1 F2 [(0, 10)] (fun _ => (none : Option F2)) 10
      (fun i _ => rfl) 1 [0]⟩

/-! ### Claim C3: interaction-matrix and similarity-matrix invariants -/

def db2 : DB :=
  { users := [⟨1, false⟩, ⟨2, false⟩],
    posts := [],
    videos := [⟨10, 1, "", "", 0, none⟩, ⟨11, 2, "", "", 0, none⟩],
    interactions :=
      [⟨1, 10, 0, some true, false, false, false⟩,
       ⟨1, 11, 0, some false, false, false, false⟩,
       ⟨2, 10, 0, some true, false, false, false⟩,
       ⟨2, 11, 0, none, true, false, false⟩],
    follows := [], ads := [], ad_impressions := [], interest_profiles := [] }


/-- C3: (i) a nonzero matrix cell is exactly the score of a stored
interaction with nonzero derived score for that (user, video) pair;
(ii) the builder's interaction list consists precisely of the stored
interactions with nonzero score; (iii) the similarity matrix is square
with dimension equal to the number of distinct items having a
nonzero-score interaction; (iv) the similarity matrix is symmetric, for
every square-root function and every score type with commutative
multiplication. -/
theorem C3_matrix_invariants :
    (∀ (db : DB) (u v : ℕ), pivot_cell (nz_interaction_list db) u v ≠ 0 →
      ∃ r, r ∈ db.interactions ∧ r.user_id = u ∧ r.video_id = v ∧
        interaction_score r ≠ 0 ∧
        pivot_cell (nz_interaction_list db) u v = interaction_score r) ∧
    (∀ (db : DB) (r : UserVideoInteraction),
      r ∈ nz_interaction_list db ↔ r ∈ db.interactions ∧ interaction_score r ≠ 0) ∧
    (∀ (K : Type) [Zero K] [One K] [Add K] [Neg K] [Mul K] [Div K]
      (sqrt : K → K) (ofZ : ℤ → K) (db : DB),
      (sim_rows K sqrt ofZ (nz_interaction_list db) (cf_user_ids db)
        (cf_video_ids db)).length = (cf_video_ids db).length ∧
      (∀ row ∈ sim_rows K sqrt ofZ (nz_interaction_list db) (cf_user_ids db)
        (cf_video_ids db), row.length = (cf_video_ids db).length) ∧
      (cf_video_ids db).length =
        (((nz_interaction_list db).map (·.video_id)).dedup).length) ∧
    (∀ (K : Type) [Zero K] [One K] [Add K] [Neg K] [Mul K] [Div K]
      (sqrt : K → K) (ofZ : ℤ → K),
      (∀ a b : K, a * b = b * a) →
      ∀ (nz : List UserVideoInteraction) (uids : List ℕ) (v w : ℕ),
        cos_sim K sqrt ofZ nz uids v w = cos_sim K sqrt ofZ nz uids w v) := by
  refine ⟨?_, ?_, ?_, ?_⟩
  · intro db u v h
    unfold pivot_cell at h ⊢
    cases hf : (nz_interaction_list db).filter (fun r => r.user_id == u && r.video_id == v) with
    | nil => rw [hf] at h; exact absurd rfl h
    | cons r rest =>
      have hr : r ∈ (nz_interaction_list db).filter
          (fun r => r.user_id == u && r.video_id == v) := by
        rw [hf]; exact List.mem_cons_self r rest
      have h1 := List.mem_filter.mp hr
      have h2 := List.mem_filter.mp h1.1
      refine ⟨r, h2.1, ?_, ?_, by simpa using h2.2, rfl⟩
      · have := h1.2
        simp only [Bool.and_eq_true, beq_iff_eq] at this
        exact this.1
      · have := h1.2
        simp only [Bool.and_eq_true, beq_iff_eq] at this
        exact this.2
  · intro db r
    unfold nz_interaction_list
    rw [List.mem_filter]
    simp
  · intro K _ _ _ _ _ _ sqrt ofZ db
    refine ⟨?_, ?_, ?_⟩
    · unfold sim_rows
      exact List.length_map _ _
    · intro row hrow
      unfold sim_rows at hrow
      rcases List.mem_map.mp hrow with ⟨v, _, hveq⟩
      rw [← hveq]
      exact List.length_map _ _
    · unfold cf_video_ids
      exact (perm_sortBy _ _).length_eq
  · intro K _ _ _ _ _ _ sqrt ofZ hmul nz uids v w
    have hdot : ∀ a b : ℕ, col_dot nz uids a b = col_dot nz uids b a := by
      intro a b
      unfold col_dot
      congr 1
      exact List.map_congr_left (fun u _ => Int.mul_comm _ _)
    unfold cos_sim
    dsimp only
    rw [hdot v w, hmul]

def db3w : DB := db2

/-- C3 witness: the invariants evaluated on the concrete store `db2`
(user 1 disliked video 11, giving the nonzero cell −2). -/
theorem C3_matrix_invariants_witness :
    (∃ r, r ∈ db3w.interactions ∧ r.user_id = 1 ∧ r.video_id = 11 ∧
      interaction_score r ≠ 0 ∧
      pivot_cell (nz_interaction_list db3w) 1 11 = interaction_score r) ∧
    cos_sim F2 F2.sqrt F2.ofInt (nz_interaction_list db3w) (cf_user_ids db3w) 10 11 =
      cos_sim F2 F2.sqrt F2.ofInt (nz_interaction_list db3w) (cf_user_ids db3w) 11 10 :=
  ⟨C3_matrix_invariants.1 db3w 1 11 (by decide),
   C3_matrix_invariants.2.2.2 F2 F2.sqrt F2.ofInt F2.mul_comm3
     (nz_interaction_list db3w) (cf_user_ids db3w) 10 11⟩

/-! ### Claim C10: the 0.1 materiality threshold -/

/-- C10: (i) the CF path's `score > 0.1` materiality test, on the integer
interaction scores the matrix stores, holds exactly for scores ≥ 1 — so a
disliked item (score −2) or any score ≤ 0.1 is not treated as interacted;
(ii) in `db2`, user 1 disliked video 11 (cell −2); (iii) the
fallback-exclusion set for user 1 contains only the liked video 10, not
the disliked video 11; (iv) requesting 1 recommendation for user 1
returns the very video 11 that user explicitly disliked. -/
theorem C10_materiality_threshold :
    (∀ z : ℤ, (!F2.le (F2.ofInt z) (F2.ofInt 1 / F2.ofInt 10)) = decide (1 ≤ z)) ∧
    pivot_cell (nz_interaction_list db2) 1 11 = -2 ∧
    fallback_excluded F2 F2.le F2.ofInt
      (pivot_rows (nz_interaction_list db2) (cf_user_ids db2) (cf_video_ids db2))
      (id_to_idx (cf_user_ids db2)) (idx_to_id (cf_video_ids db2)) 1 = [10] ∧
    (get_recommendations_for_user F2 F2.le F2.sqrt F2.ofInt db2 (Cache.empty F2) 0 id
      (fun _ => 7) 1 1).1 = [FeedItem.video ⟨11, 2, "", "", 0, none⟩] := by
  refine ⟨interacted_test_ofInt, ?_⟩
  decide

/-! ### Shared structural lemmas for claims C8 and C9 -/

/-- Filtering a prefix yields a prefix of the filtered list. -/
theorem filter_take_eq_take_filter {α : Type} (p : α → Bool) :
    ∀ (l : List α) (n : ℕ), ∃ m, (l.take n).filter p = (l.filter p).take m := by
  intro l
  induction l with
  | nil => intro n; exact ⟨0, by simp⟩
  | cons x xs ih =>
    intro n
    cases n with
    | zero => exact ⟨0, by simp⟩
    | succ k =>
      rcases ih k with ⟨m, hm⟩
      cases hx : p x with
      | true =>
        exact ⟨m + 1, by simp [hx, hm]⟩
      | false =>
        exact ⟨m, by simp [hx, hm]⟩

/-- The ad-injection loop only interleaves ads: dropping the ad entries
recovers the organic list. -/
theorem inject_aux_filter_nonAd :
    ∀ (items : List FeedItem) (ads : List Ad) (ivals : ℕ → ℕ) (i itv d a : ℕ),
      (∀ it ∈ items, it.isAd = false) →
      (inject_aux items ads ivals i itv d a).filter (fun it => !it.isAd) = items := by
  intro items
  induction items with
  | nil => intro ads ivals i itv d a _; rfl
  | cons x rest ih =>
    intro ads ivals i itv d a h
    have hx : x.isAd = false := h x (List.mem_cons_self x rest)
    have hrest : ∀ it ∈ rest, it.isAd = false :=
      fun it hit => h it (List.mem_cons_of_mem x hit)
    unfold inject_aux
    by_cases hc : ((i + 1) % itv == 0 && decide (a < ads.length)) = true
    · rw [if_pos hc]
      cases hg : ads.get? a with
      | some ad =>
        rw [List.filter_cons_of_pos (by simp [hx]),
          List.filter_cons_of_neg (by simp [FeedItem.isAd]),
          ih ads ivals (i + 1) (ivals d) (d + 1) (a + 1) hrest]
      | none =>
        rw [List.filter_cons_of_pos (by simp [hx]), ih ads ivals (i + 1) itv d a hrest]
    · rw [if_neg hc]
      rw [List.filter_cons_of_pos (by simp [hx]), ih ads ivals (i + 1) itv d a hrest]

/-- With a zero budget the video section is empty. -/
theorem videos_section_zero (K : Type) [Zero K] [One K] [Add K] [Neg K] [Mul K] [Div K]
    (kle : K → K → Bool) (sqrt : K → K) (ofZ : ℤ → K) (db : DB) (c : Cache K)
    (uid : ℕ) : videos_section K kle sqrt ofZ db c uid 0 = [] := by
  unfold videos_section
  dsimp only
  simp

/-- With a zero limit the posts section is empty. -/
theorem posts_section_zero (db : DB) (uid : ℕ) : posts_section db uid 0 = [] := by
  unfold posts_section superuser_posts_taken
  simp

/-- Step 2's loop is a plain `take` when the source list avoids the
accumulated ids and has no duplicate ids. -/
theorem take_new_posts_eq_take :
    ∀ (l : List Post) (n : ℕ) (added : List ℕ),
      (∀ p ∈ l, ¬ added.contains p.id) → ((l.map Post.id).Nodup) →
      take_new_posts n added l = l.take n := by
  intro l
  induction l with
  | nil => intro n added _ _; cases n <;> rfl
  | cons p ps ih =>
    intro n added hni hnd
    cases n with
    | zero => rfl
    | succ k =>
      unfold take_new_posts
      rw [if_neg (by simpa using hni p (List.mem_cons_self p ps))]
      have hnd' : (ps.map Post.id).Nodup := (List.nodup_cons.mp (by simpa using hnd)).2
      have hpid : p.id ∉ ps.map Post.id := (List.nodup_cons.mp (by simpa using hnd)).1
      rw [ih k (p.id :: added) ?_ hnd']
      · simp
      · intro q hq
        have h1 : ¬ added.contains q.id := hni q (List.mem_cons_of_mem p hq)
        have h2 : q.id ≠ p.id := by
          intro he
          exact hpid (he ▸ List.mem_map_of_mem Post.id hq)
        simp only [List.contains_cons, Bool.or_eq_true, not_or, beq_iff_eq]
        exact ⟨h2, h1⟩

/-- Under referential integrity (every post's author is a stored user),
the source's own-post test `user_exists && p.user_id == uid` is the plain
test `p.user_id != uid` (negated). -/
theorem own_filter_eq (db : DB) (uid : ℕ)
    (hauth : ∀ p ∈ db.posts, p.user_id ∈ db.users.map AuthUser.id) :
    ∀ p ∈ db.posts, (!(user_exists db uid && p.user_id == uid)) = (p.user_id != uid) := by
  intro p hp
  by_cases he : p.user_id = uid
  · have hux : user_exists db uid = true := by
      rcases List.mem_map.mp (hauth p hp) with ⟨u, hu, hid⟩
      unfold user_exists
      rw [List.any_eq_true]
      exact ⟨u, hu, by simp [hid, he]⟩
    rw [hux]
    simp [he, bne]
  · cases hux : user_exists db uid <;> simp [bne, he, hux]

/-- Helper: the non-ad entries of the truncated, ad-injected feed form a
prefix of the organic list. -/
theorem filter_nonAd_take_inject (L : List FeedItem) (cands : List Ad) (iv : ℕ → ℕ) (n : ℕ)
    (hnonad : ∀ it ∈ L, it.isAd = false) :
    ∃ m, ((if L.isEmpty = true then L else inject_ads L cands iv).take n).filter
        (fun it => !it.isAd) = L.take m := by
  rcases filter_take_eq_take_filter (fun it => !it.isAd)
      (if L.isEmpty = true then L else inject_ads L cands iv) n with ⟨m, hm⟩
  refine ⟨m, ?_⟩
  rw [hm]
  congr 1
  split
  · exact List.filter_eq_self.mpr (fun a ha => by simp [hnonad a ha])
  · unfold inject_ads
    exact inject_aux_filter_nonAd _ _ _ _ _ _ _ hnonad

/-! ### Claim C9: posts before videos, superusers first, newest first -/

/-- C9: (a) the posts section consists of the superuser posts (newest
first, the requesting user's own excluded) up to the limit, followed by
the non-superuser posts (newest first, own excluded) filling the
remainder; (b) the non-ad part of the returned feed is a prefix of
`posts section ++ videos section`, where the video section is only asked
for the slots posts left over. -/
theorem C9_posts_first_videos_fill (db : DB) (uid n : ℕ)
    (hids : (db.posts.map Post.id).Nodup)
    (hauth : ∀ p ∈ db.posts, p.user_id ∈ db.users.map AuthUser.id) :
    (posts_section db uid n =
      ((superuser_posts_qs db).filter (fun p => p.user_id != uid)).take n ++
      (sortBy (fun p q => decide (q.created_at ≤ p.created_at))
        (db.posts.filter (fun p => !is_superuser_author db p && p.user_id != uid))).take
        (n - (((superuser_posts_qs db).filter (fun p => p.user_id != uid)).take n).length)) ∧
    (∀ (K : Type) [Zero K] [One K] [Add K] [Neg K] [Mul K] [Div K]
      (kle : K → K → Bool) (sqrt : K → K) (ofZ : ℤ → K)
      (cache : Cache K) (now : ℤ) (sh : List Ad → List Ad) (iv : ℕ → ℕ),
      ∃ m, (get_recommendations_for_user K kle sqrt ofZ db cache now sh iv uid n).1.filter
          (fun it => !it.isAd) =
        ((posts_section db uid n).map FeedItem.post ++
          (videos_section K kle sqrt ofZ db cache uid
            (n - (posts_section db uid n).length)).map FeedItem.video).take m) := by
  have hsu : superuser_posts_taken db uid n =
      ((superuser_posts_qs db).filter (fun p => p.user_id != uid)).take n := by
    unfold superuser_posts_taken
    congr 1
    apply List.filter_congr
    intro p hp
    exact own_filter_eq db uid hauth p
      (List.mem_filter.mp ((perm_sortBy _ _).mem_iff.mp hp)).1
  constructor
  · unfold posts_section
    by_cases hlt : (superuser_posts_taken db uid n).length < n
    · rw [if_pos hlt]
      have hfull : ((superuser_posts_qs db).filter
          (fun p => !(user_exists db uid && p.user_id == uid))).length < n := by
        have hmin : (superuser_posts_taken db uid n).length =
            min n ((superuser_posts_qs db).filter
              (fun p => !(user_exists db uid && p.user_id == uid))).length := by
          unfold superuser_posts_taken
          exact List.length_take _ _
        omega
      have htaken : superuser_posts_taken db uid n =
          (superuser_posts_qs db).filter
            (fun p => !(user_exists db uid && p.user_id == uid)) := by
        unfold superuser_posts_taken
        exact List.take_of_length_le (le_of_lt hfull)
      have hcontains : ∀ p ∈ db.posts,
          (((superuser_posts_taken db uid n).map Post.id).contains p.id) =
            (is_superuser_author db p && p.user_id != uid) := by
        intro p hp
        have hiff : (p.id ∈ (superuser_posts_taken db uid n).map Post.id) ↔
            (is_superuser_author db p && p.user_id != uid) = true := by
          constructor
          · intro hm
            rcases List.mem_map.mp hm with ⟨q, hq, hqid⟩
            rw [htaken] at hq
            have h1 := List.mem_filter.mp hq
            have h2 := List.mem_filter.mp ((perm_sortBy _ _).mem_iff.mp h1.1)
            have hqp : q = p := List.inj_on_of_nodup_map hids h2.1 hp hqid
            rw [← hqp]
            rw [own_filter_eq db uid hauth q h2.1] at h1
            simp only [Bool.and_eq_true]
            exact ⟨(by rw [hqp]; rw [hqp] at h2; exact h2.2 : is_superuser_author db q = true),
              h1.2⟩
          · intro hb
            simp only [Bool.and_eq_true] at hb
            apply List.mem_map.mpr
            refine ⟨p, ?_, rfl⟩
            rw [htaken]
            apply List.mem_filter.mpr
            refine ⟨(perm_sortBy _ _).mem_iff.mpr (List.mem_filter.mpr ⟨hp, hb.1⟩), ?_⟩
            rw [own_filter_eq db uid hauth p hp]
            exact hb.2
        cases hb : (is_superuser_author db p && p.user_id != uid) with
        | true =>
          have := hiff.mpr hb
          simp [this]
        | false =>
          have hnm : p.id ∉ (superuser_posts_taken db uid n).map Post.id := by
            intro hm
            rw [hiff.mp hm] at hb
            exact Bool.true_eq_false.mp hb
          simp [hnm]
      have havoid : ∀ p ∈ other_posts_qs db uid
          ((superuser_posts_taken db uid n).map Post.id),
          ¬ ((superuser_posts_taken db uid n).map Post.id).contains p.id := by
        intro p hp
        have h1 := List.mem_filter.mp ((perm_sortBy _ _).mem_iff.mp hp)
        have h2 := h1.2
        simp only [Bool.and_eq_true, Bool.not_eq_true'] at h2
        intro hc
        rw [h2.1] at hc
        exact Bool.false_ne_true hc
      have hother_nodup : ((other_posts_qs db uid
          ((superuser_posts_taken db uid n).map Post.id)).map Post.id).Nodup := by
        have hperm := (perm_sortBy (fun p q => decide (q.created_at ≤ p.created_at))
          (db.posts.filter (fun p =>
            !((superuser_posts_taken db uid n).map Post.id).contains p.id &&
            !(user_exists db uid && p.user_id == uid)))).map Post.id
        unfold other_posts_qs
        rw [hperm.nodup_iff]
        exact hids.sublist ((List.filter_sublist _).map Post.id)
      rw [take_new_posts_eq_take _ _ _ havoid hother_nodup]
      have hof : other_posts_qs db uid ((superuser_posts_taken db uid n).map Post.id) =
          sortBy (fun p q => decide (q.created_at ≤ p.created_at))
            (db.posts.filter (fun p => !is_superuser_author db p && p.user_id != uid)) := by
        unfold other_posts_qs
        congr 1
        apply List.filter_congr
        intro p hp
        rw [hcontains p hp, own_filter_eq db uid hauth p hp]
        cases is_superuser_author db p <;> cases (p.user_id != uid) <;> rfl
      rw [hof, hsu]
    · rw [if_neg hlt]
      have hle : (superuser_posts_taken db uid n).length ≤ n := by
        unfold superuser_posts_taken
        rw [List.length_take]
        omega
      have hn : (superuser_posts_taken db uid n).length = n := by omega
      rw [← hsu, hn]
      simp
  · intro K _ _ _ _ _ _ kle sqrt ofZ cache now sh iv
    unfold get_recommendations_for_user
    dsimp only
    rw [List.length_map]
    by_cases h0 : n - (posts_section db uid n).length > 0
    · rw [if_pos h0]
      apply filter_nonAd_take_inject
      intro it hit
      rcases List.mem_append.mp hit with h | h
      · rcases List.mem_map.mp h with ⟨p, _, rfl⟩; rfl
      · rcases List.mem_map.mp h with ⟨v, _, rfl⟩; rfl
    · rw [if_neg h0]
      have hz : n - (posts_section db uid n).length = 0 := by omega
      rw [hz, videos_section_zero]
      simp only [List.map_nil, List.append_nil]
      apply filter_nonAd_take_inject
      intro it hit
      rcases List.mem_map.mp hit with ⟨p, _, rfl⟩
      rfl
def db9w : DB :=
  { users := [⟨1, false⟩, ⟨2, true⟩, ⟨3, false⟩],
    posts := [⟨201, 3, "", 5, 0, 0, 0, 0⟩, ⟨202, 2, "", 1, 0, 0, 0, 0⟩],
    videos := [], interactions := [], follows := [], ads := [],
    ad_impressions := [], interest_profiles := [] }

/-- C9 witness: the feed-structure statement applied at a concrete store
with one superuser post and one newer regular post. -/
theorem C9_posts_first_videos_fill_witness :
    (posts_section db9w 1 2 =
      ((superuser_posts_qs db9w).filter (fun p => p.user_id != 1)).take 2 ++
      (sortBy (fun p q => decide (q.created_at ≤ p.created_at))
        (db9w.posts.filter (fun p => !is_superuser_author db9w p && p.user_id != 1))).take
        (2 - (((superuser_posts_qs db9w).filter (fun p => p.user_id != 1)).take 2).length)) ∧
    (∃ m, (get_recommendations_for_user F2 F2.le F2.sqrt F2.ofInt db9w (Cache.empty F2) 0 id
        (fun _ => 7) 1 2).1.filter (fun it => !it.isAd) =
      ((posts_section db9w 1 2).map FeedItem.post ++
        (videos_section F2 F2.le F2.sqrt F2.ofInt db9w (Cache.empty F2) 1
          (2 - (posts_section db9w 1 2).length)).map FeedItem.video).take m) :=
  ⟨(C9_posts_first_videos_fill db9w 1 2 (by decide) (by decide)).1,
   (C9_posts_first_videos_fill db9w 1 2 (by decide) (by decide)).2 F2 F2.le F2.sqrt F2.ofInt
     (Cache.empty F2) 0 id (fun _ => 7)⟩

/-! ### Claim C8: zero limit and no duplicate (item_type, item_id) pairs -/

theorem alookup_mem {α : Type} (l : List (ℕ × α)) (k : ℕ) (v : α)
    (h : alookup l k = some v) : (k, v) ∈ l := by
  unfold alookup at h
  cases hf : l.find? (fun p => p.1 == k) with
  | none => rw [hf] at h; cases h
  | some q =>
    rw [hf] at h
    have hq1 := List.find?_some hf
    have hq2 := List.mem_of_find?_eq_some hf
    rcases q with ⟨qk, qv⟩
    simp at h
    simp only [beq_iff_eq] at hq1
    rw [← hq1, ← h]
    exact hq2

/-- Looking an index up in the enumeration of a list reads the list. -/
theorem alookup_enumFrom {α : Type} :
    ∀ (l : List α) (off i : ℕ) (v : α),
      alookup (List.enumFrom off l) i = some v → l[i - off]? = some v ∧ off ≤ i := by
  intro l
  induction l with
  | nil => intro off i v h; cases h
  | cons x xs ih =>
    intro off i v h
    by_cases hoi : off = i
    · subst hoi
      unfold alookup at h
      rw [show List.enumFrom off (x :: xs) = (off, x) :: List.enumFrom (off + 1) xs from rfl,
        List.find?_cons_of_pos _ (by simp)] at h
      simp at h
      refine ⟨?_, le_refl off⟩
      simp [Nat.sub_self, ← h]
    · unfold alookup at h
      rw [show List.enumFrom off (x :: xs) = (off, x) :: List.enumFrom (off + 1) xs from rfl,
        List.find?_cons_of_neg _ (by simpa using hoi)] at h
      have hrec := ih (off + 1) i v h
      refine ⟨?_, by omega⟩
      have hoff : i - off = (i - (off + 1)) + 1 := by omega
      rw [hoff]
      simpa using hrec.1

/-- Id lookup of `idx_to_id` reads the underlying id list. -/
theorem alookup_idx_to_id (l : List ℕ) (i v : ℕ)
    (h : alookup (idx_to_id l) i = some v) : l[i]? = some v := by
  unfold idx_to_id at h
  have hrec := alookup_enumFrom l 0 i v (by simpa [List.enum] using h)
  simpa using hrec.1

/-- For a duplicate-free id list, `idx_to_id` lookups are injective. -/
theorem alookup_idx_to_id_inj (l : List ℕ) (hl : l.Nodup) (i i' v : ℕ)
    (h : alookup (idx_to_id l) i = some v) (h' : alookup (idx_to_id l) i' = some v) :
    i = i' := by
  have e1 := alookup_idx_to_id l i v h
  have e2 := alookup_idx_to_id l i' v h'
  exact List.getElem?_inj (List.getElem?_eq_some.mp e1).1 hl (e1.trans e2.symm)

/-- Every id the collection loop returns was looked up from some index of
the rank order. -/
theorem collect_cf_ids_mem (K : Type) (i2v : List (ℕ × ℕ)) (masked : ℕ → Option K) :
    ∀ (n : ℕ) (order : List ℕ) (v : ℕ), v ∈ collect_cf_ids K i2v masked n order →
      ∃ i ∈ order, alookup i2v i = some v := by
  intro n order
  induction order generalizing n with
  | nil => intro v hv; cases n <;> simp [collect_cf_ids] at hv
  | cons i rest ih =>
    intro v hv
    cases n with
    | zero => simp [collect_cf_ids] at hv
    | succ k =>
      unfold collect_cf_ids at hv
      cases hm : masked i with
      | none =>
        simp only [hm] at hv
        rcases ih (k + 1) v hv with ⟨j, hj, hjv⟩
        exact ⟨j, List.mem_cons_of_mem i hj, hjv⟩
      | some x =>
        simp only [hm] at hv
        cases hl : alookup i2v i with
        | none =>
          simp only [hl] at hv
          rcases ih (k + 1) v hv with ⟨j, hj, hjv⟩
          exact ⟨j, List.mem_cons_of_mem i hj, hjv⟩
        | some vid =>
          simp only [hl] at hv
          by_cases hv0 : vid = 0
          · simp only [hv0, beq_self_eq_true, if_true] at hv
            rcases ih (k + 1) v hv with ⟨j, hj, hjv⟩
            exact ⟨j, List.mem_cons_of_mem i hj, hjv⟩
          · rw [if_neg (by simpa using hv0)] at hv
            cases k with
            | zero =>
              rw [if_pos rfl] at hv
              rcases List.mem_singleton.mp hv with rfl
              exact ⟨i, List.mem_cons_self i rest, hl⟩
            | succ k2 =>
              rw [if_neg (by omega)] at hv
              rcases List.mem_cons.mp hv with h1 | h1
              · exact ⟨i, List.mem_cons_self i rest, by rw [hl, h1]⟩
              · rcases ih (k2 + 1) v h1 with ⟨j, hj, hjv⟩
                exact ⟨j, List.mem_cons_of_mem i hj, hjv⟩

/-- With injective index-to-id lookups and a duplicate-free rank order,
the collected CF ids are duplicate-free. -/
theorem collect_cf_ids_nodup (K : Type) (i2v : List (ℕ × ℕ)) (masked : ℕ → Option K)
    (hinj : ∀ i i' v, alookup i2v i = some v → alookup i2v i' = some v → i = i') :
    ∀ (n : ℕ) (order : List ℕ), order.Nodup → (collect_cf_ids K i2v masked n order).Nodup := by
  intro n order
  induction order generalizing n with
  | nil => intro _; cases n <;> simp [collect_cf_ids]
  | cons i rest ih =>
    intro hnd
    have hndr : rest.Nodup := (List.nodup_cons.mp hnd).2
    have hir : i ∉ rest := (List.nodup_cons.mp hnd).1
    cases n with
    | zero => simp [collect_cf_ids]
    | succ k =>
      unfold collect_cf_ids
      cases hm : masked i with
      | none =>
        dsimp only
        exact ih (k + 1) hndr
      | some x =>
        dsimp only
        cases hl : alookup i2v i with
        | none => dsimp only; exact ih (k + 1) hndr
        | some vid =>
          dsimp only
          by_cases hv0 : vid = 0
          · simp only [hv0, beq_self_eq_true, if_true]
            exact ih (k + 1) hndr
          · rw [if_neg (by simpa using hv0)]
            cases k with
            | zero =>
              rw [if_pos rfl]
              simp
            | succ k2 =>
              rw [if_neg (by omega)]
              apply List.nodup_cons.mpr
              refine ⟨?_, ih (k2 + 1) hndr⟩
              intro hmem
              rcases collect_cf_ids_mem K i2v masked (k2 + 1) rest vid hmem with ⟨j, hj, hjv⟩
              exact hir ((hinj i j vid hl hjv) ▸ hj)

/-- The ids of the found video objects form a sub-sequence of the
searched ids. -/
theorem filterMap_find_ids_sublist (db : DB) :
    ∀ temp : List ℕ,
      ((temp.filterMap (fun vid => db.videos.find? (fun v => v.id == vid))).map
        Video.id).Sublist temp := by
  intro temp
  induction temp with
  | nil => simp
  | cons vid rest ih =>
    cases hf : db.videos.find? (fun v => v.id == vid) with
    | none =>
      simp only [List.filterMap_cons, hf]
      exact ih.cons vid
    | some video =>
      have : video.id = vid := by simpa using List.find?_some hf
      simp only [List.filterMap_cons, hf, List.map_cons, this]
      exact ih.cons₂ vid

/-- The fallback-appending loop preserves duplicate-freeness of the
video ids (its membership check deduplicates). -/
theorem append_fallback_nodup (limit : ℕ) :
    ∀ (l packaged : List Video), ((packaged.map Video.id).Nodup) →
      (((append_fallback limit packaged l).map Video.id)).Nodup := by
  intro l
  induction l with
  | nil => intro packaged h; exact h
  | cons v vs ih =>
    intro packaged h
    unfold append_fallback
    by_cases hlen : packaged.length < limit
    · rw [if_pos hlen]
      cases hany : packaged.any (fun r => r.id == v.id) with
      | true => exact ih packaged h
      | false =>
        apply ih
        rw [List.map_append]
        refine h.append (by simp) ?_
        intro x hx
        rcases List.mem_map.mp hx with ⟨r, hr, hrid⟩
        have hne : r.id ≠ v.id := by simpa using List.any_eq_false.mp hany r hr
        simp only [List.map_cons, List.map_nil, List.mem_singleton]
        rw [← hrid]
        exact hne
    · rw [if_neg hlen]
      exact h

theorem cf_video_ids_nodup (db : DB) : (cf_video_ids db).Nodup := by
  unfold cf_video_ids
  exact ((perm_sortBy _ _).nodup_iff).mpr (List.nodup_dedup _)

/-- A forced build leaves the index-to-id video map either empty or the
enumeration of the (duplicate-free) pivot columns. -/
theorem build_force_i2v (K : Type) [Zero K] [One K] [Add K] [Neg K] [Mul K] [Div K]
    (sqrt : K → K) (ofZ : ℤ → K) (db : DB) (c : Cache K) :
    (build_interaction_data_and_matrices K sqrt ofZ true db c).1.video_idx_to_id = some [] ∨
    (build_interaction_data_and_matrices K sqrt ofZ true db c).1.video_idx_to_id =
      some (idx_to_id (cf_video_ids db)) := by
  unfold build_interaction_data_and_matrices
  cases hI : db.interactions with
  | nil => left; rfl
  | cons a l =>
    cases hz : nz_interaction_list db with
    | nil => left; rfl
    | cons b m => right; rfl

/-- The cache in force at video time has injective index-to-id lookups,
whether it was passed in well-formed or just rebuilt. -/
theorem ensured_cache_i2v_inj (K : Type) [Zero K] [One K] [Add K] [Neg K] [Mul K] [Div K]
    (sqrt : K → K) (ofZ : ℤ → K) (db : DB) (c : Cache K)
    (hc : ∀ i i' v, alookup (c.video_idx_to_id.getD []) i = some v →
      alookup (c.video_idx_to_id.getD []) i' = some v → i = i') :
    ∀ i i' v,
      alookup (((ensured_cache K sqrt ofZ db c).video_idx_to_id).getD []) i = some v →
      alookup (((ensured_cache K sqrt ofZ db c).video_idx_to_id).getD []) i' = some v →
      i = i' := by
  unfold ensured_cache
  by_cases hcond : (c.user_item_matrix_df.isNone || c.item_similarity_matrix.isNone) = true
  · rw [if_pos hcond]
    rcases build_force_i2v K sqrt ofZ db c with h | h
    · rw [h]
      intro i i' v hi _
      simp [alookup] at hi
    · rw [h]
      intro i i' v hi hi'
      exact alookup_idx_to_id_inj _ (cf_video_ids_nodup db) i i' v (by simpa using hi)
        (by simpa using hi')
  · rw [if_neg hcond]
    exact hc

/-- The CF part of the video section returns duplicate-free video ids. -/
theorem cf_section_ids_nodup (K : Type) [Zero K] [One K] [Add K] [Neg K] [Mul K] [Div K]
    (kle : K → K → Bool) (ofZ : ℤ → K) (db : DB) (c' : Cache K) (uid needed : ℕ)
    (hinj : ∀ i i' v, alookup (c'.video_idx_to_id.getD []) i = some v →
      alookup (c'.video_idx_to_id.getD []) i' = some v → i = i') :
    ((cf_section K kle ofZ db c' uid needed).map Video.id).Nodup := by
  unfold cf_section
  dsimp only
  split
  · split
    · split
      · split
        · refine List.Nodup.sublist (filterMap_find_ids_sublist db _) ?_
          exact collect_cf_ids_nodup K _ _ hinj needed _
            ((perm_sortBy _ _).nodup_iff.mpr (List.nodup_range _))
        · simp
      · simp
    · simp
  · simp

/-- The video section returns duplicate-free video ids. -/
theorem videos_section_ids_nodup (K : Type) [Zero K] [One K] [Add K] [Neg K] [Mul K] [Div K]
    (kle : K → K → Bool) (sqrt : K → K) (ofZ : ℤ → K) (db : DB) (c : Cache K)
    (uid needed : ℕ)
    (hc : ∀ i i' v, alookup (c.video_idx_to_id.getD []) i = some v →
      alookup (c.video_idx_to_id.getD []) i' = some v → i = i') :
    ((videos_section K kle sqrt ofZ db c uid needed).map Video.id).Nodup := by
  have hpack : (((cf_section K kle ofZ db (ensured_cache K sqrt ofZ db c) uid
      needed).take needed).map Video.id).Nodup := by
    rw [List.map_take]
    exact List.Nodup.sublist (List.take_sublist _ _)
      (cf_section_ids_nodup K kle ofZ db _ uid needed
        (ensured_cache_i2v_inj K sqrt ofZ db c hc))
  unfold videos_section
  dsimp only
  split
  · exact append_fallback_nodup needed _ _ hpack
  · exact hpack

/-- The step-2 loop's own id check keeps its output duplicate-free and
disjoint from the already-added ids, whatever the input list. -/
theorem take_new_posts_ids_nodup :
    ∀ (l : List Post) (n : ℕ) (added : List ℕ),
      ((take_new_posts n added l).map Post.id).Nodup ∧
      ∀ x ∈ (take_new_posts n added l).map Post.id, x ∉ added := by
  intro l
  induction l with
  | nil =>
    intro n added
    cases n <;> exact ⟨by simp [take_new_posts], by simp [take_new_posts]⟩
  | cons p ps ih =>
    intro n added
    cases n with
    | zero => exact ⟨by simp [take_new_posts], by simp [take_new_posts]⟩
    | succ k =>
      unfold take_new_posts
      by_cases hc : p.id ∈ added
      · rw [if_pos (by simpa using hc)]
        exact ih (k + 1) added
      · rw [if_neg (by simpa using hc)]
        obtain ⟨h1, h2⟩ := ih k (p.id :: added)
        refine ⟨?_, ?_⟩
        · simp only [List.map_cons, List.nodup_cons]
          exact ⟨fun hm => (h2 p.id hm) (List.mem_cons_self _ _), h1⟩
        · intro x hx
          simp only [List.map_cons, List.mem_cons] at hx
          rcases hx with rfl | hx
          · exact hc
          · exact fun hxa => h2 x hx (List.mem_cons_of_mem _ hxa)

/-- Step 1 keeps distinct post ids when the store has them. -/
theorem superuser_posts_taken_ids_nodup (db : DB) (uid n : ℕ)
    (hids : (db.posts.map Post.id).Nodup) :
    ((superuser_posts_taken db uid n).map Post.id).Nodup := by
  unfold superuser_posts_taken superuser_posts_qs
  rw [List.map_take]
  refine List.Nodup.sublist (List.take_sublist _ _) ?_
  refine List.Nodup.sublist ((List.filter_sublist _).map Post.id) ?_
  refine ((perm_sortBy _ _).map Post.id).nodup_iff.mpr ?_
  exact List.Nodup.sublist ((List.filter_sublist _).map Post.id) hids

/-- The posts section never repeats a post id. -/
theorem posts_section_ids_nodup (db : DB) (uid n : ℕ)
    (hids : (db.posts.map Post.id).Nodup) :
    ((posts_section db uid n).map Post.id).Nodup := by
  have hsu := superuser_posts_taken_ids_nodup db uid n hids
  unfold posts_section
  dsimp only
  split
  · rw [List.map_append]
    obtain ⟨h1, h2⟩ := take_new_posts_ids_nodup
      (other_posts_qs db uid ((superuser_posts_taken db uid n).map Post.id))
      (n - (superuser_posts_taken db uid n).length)
      ((superuser_posts_taken db uid n).map Post.id)
    exact List.Nodup.append hsu h1 (fun x hx1 hx2 => h2 x hx2 hx1)
  · exact hsu

/-- Tagging distinct post ids as feed keys keeps them distinct. -/
theorem keys_post_nodup (l : List Post) (h : (l.map Post.id).Nodup) :
    ((l.map FeedItem.post).map FeedItem.key).Nodup := by
  rw [List.map_map]
  have he : (FeedItem.key ∘ FeedItem.post) = (fun i => ((0 : ℕ), i)) ∘ Post.id := rfl
  rw [he, ← List.map_map]
  exact h.map (fun a b hab => congrArg Prod.snd hab)

/-- Tagging distinct video ids as feed keys keeps them distinct. -/
theorem keys_video_nodup (l : List Video) (h : (l.map Video.id).Nodup) :
    ((l.map FeedItem.video).map FeedItem.key).Nodup := by
  rw [List.map_map]
  have he : (FeedItem.key ∘ FeedItem.video) = (fun i => ((1 : ℕ), i)) ∘ Video.id := rfl
  rw [he, ← List.map_map]
  exact h.map (fun a b hab => congrArg Prod.snd hab)

theorem mem_post_keys_fst (posts : List Post) (x : ℕ × ℕ)
    (h : x ∈ (posts.map FeedItem.post).map FeedItem.key) : x.1 = 0 := by
  rcases List.mem_map.mp h with ⟨y, hy, rfl⟩
  rcases List.mem_map.mp hy with ⟨p, _, rfl⟩
  rfl

theorem mem_video_keys_fst (videos : List Video) (x : ℕ × ℕ)
    (h : x ∈ (videos.map FeedItem.video).map FeedItem.key) : x.1 = 1 := by
  rcases List.mem_map.mp h with ⟨y, hy, rfl⟩
  rcases List.mem_map.mp hy with ⟨v, _, rfl⟩
  rfl

/-- A non-ad feed entry never carries the ad type tag. -/
theorem key_fst_ne_two (it : FeedItem) (h : it.isAd = false) : it.key.1 ≠ 2 := by
  cases it <;> simp [FeedItem.key, FeedItem.isAd] at h ⊢

theorem get_drop_cons {α : Type} :
    ∀ (l : List α) (n : ℕ) (a : α), l.get? n = some a → l.drop n = a :: l.drop (n + 1) := by
  intro l
  induction l with
  | nil => intro n a h; cases n <;> simp [List.get?] at h
  | cons x xs ih =>
    intro n a h
    cases n with
    | zero =>
      injection h with h
      subst h
      rfl
    | succ k =>
      have h2 : xs.get? k = some a := h
      rw [List.drop_succ_cons, List.drop_succ_cons]
      exact ih k a h2

/-- Every entry produced by the injection loop is an organic item or one
of the not-yet-spliced candidate ads. -/
theorem inject_aux_mem :
    ∀ (items : List FeedItem) (ads : List Ad) (ivals : ℕ → ℕ) (i itv d a : ℕ)
      (it : FeedItem), it ∈ inject_aux items ads ivals i itv d a →
      it ∈ items ∨ ∃ ad ∈ ads.drop a, it = FeedItem.ad ad := by
  intro items
  induction items with
  | nil => intro ads ivals i itv d a it h; simp [inject_aux] at h
  | cons x rest ih =>
    intro ads ivals i itv d a it h
    unfold inject_aux at h
    by_cases hc : ((i + 1) % itv == 0 && decide (a < ads.length)) = true
    · rw [if_pos hc] at h
      cases hg : ads.get? a with
      | some ad =>
        simp only [hg] at h
        simp only [List.mem_cons] at h
        rcases h with rfl | rfl | h3
        · exact Or.inl (List.mem_cons_self _ _)
        · refine Or.inr ⟨ad, ?_, rfl⟩
          rw [get_drop_cons ads a ad hg]
          exact List.mem_cons_self _ _
        · rcases ih ads ivals (i + 1) (ivals d) (d + 1) (a + 1) it h3 with h4 | ⟨ad2, h5, h6⟩
          · exact Or.inl (List.mem_cons_of_mem _ h4)
          · refine Or.inr ⟨ad2, ?_, h6⟩
            rw [get_drop_cons ads a ad hg]
            exact List.mem_cons_of_mem _ h5
      | none =>
        simp only [hg] at h
        simp only [List.mem_cons] at h
        rcases h with rfl | h3
        · exact Or.inl (List.mem_cons_self _ _)
        · rcases ih ads ivals (i + 1) itv d a it h3 with h4 | hex
          · exact Or.inl (List.mem_cons_of_mem _ h4)
          · exact Or.inr hex
    · rw [if_neg hc] at h
      simp only [List.mem_cons] at h
      rcases h with rfl | h3
      · exact Or.inl (List.mem_cons_self _ _)
      · rcases ih ads ivals (i + 1) itv d a it h3 with h4 | hex
        · exact Or.inl (List.mem_cons_of_mem _ h4)
        · exact Or.inr hex

/-- The injection loop preserves distinct feed keys: organic items keep
their post/video tags, each candidate ad is consumed at most once, and ad
ids are distinct among the remaining candidates. -/
theorem inject_aux_key_nodup :
    ∀ (items : List FeedItem) (ads : List Ad) (ivals : ℕ → ℕ) (i itv d a : ℕ),
      (items.map FeedItem.key).Nodup →
      (((ads.drop a).map Ad.id)).Nodup →
      (∀ it ∈ items, it.isAd = false) →
      ((inject_aux items ads ivals i itv d a).map FeedItem.key).Nodup := by
  intro items
  induction items with
  | nil => intro ads ivals i itv d a _ _ _; simp [inject_aux]
  | cons x rest ih =>
    intro ads ivals i itv d a hk hads hna
    have hx : x.isAd = false := hna x (List.mem_cons_self _ _)
    have hrest : ∀ it ∈ rest, it.isAd = false :=
      fun it hit => hna it (List.mem_cons_of_mem _ hit)
    rw [List.map_cons, List.nodup_cons] at hk
    obtain ⟨hxk, hkrest⟩ := hk
    unfold inject_aux
    by_cases hc : ((i + 1) % itv == 0 && decide (a < ads.length)) = true
    · rw [if_pos hc]
      cases hg : ads.get? a with
      | some ad =>
        dsimp only
        rw [List.map_cons, List.map_cons, List.nodup_cons, List.nodup_cons]
        have hdrop : ads.drop a = ad :: ads.drop (a + 1) := get_drop_cons ads a ad hg
        rw [hdrop, List.map_cons, List.nodup_cons] at hads
        obtain ⟨hadid, hads2⟩ := hads
        have hmain := ih ads ivals (i + 1) (ivals d) (d + 1) (a + 1) hkrest hads2 hrest
        refine ⟨?_, ?_, hmain⟩
        · intro hmem
          rcases List.mem_cons.mp hmem with he | hmem2
          · exact key_fst_ne_two x hx (congrArg Prod.fst he)
          · rcases List.mem_map.mp hmem2 with ⟨y, hy, hkey⟩
            rcases inject_aux_mem rest ads ivals (i + 1) (ivals d) (d + 1) (a + 1) y hy with
              hyr | ⟨ad2, _, rfl⟩
            · exact hxk (hkey ▸ List.mem_map_of_mem FeedItem.key hyr)
            · exact key_fst_ne_two x hx (congrArg Prod.fst hkey).symm
        · intro hmem
          rcases List.mem_map.mp hmem with ⟨y, hy, hkey⟩
          rcases inject_aux_mem rest ads ivals (i + 1) (ivals d) (d + 1) (a + 1) y hy with
            hyr | ⟨ad2, hd2, rfl⟩
          · exact key_fst_ne_two y (hrest y hyr) (congrArg Prod.fst hkey)
          · have hid : ad2.id = ad.id := congrArg Prod.snd hkey
            exact hadid (hid ▸ List.mem_map_of_mem Ad.id hd2)
      | none =>
        dsimp only
        rw [List.map_cons, List.nodup_cons]
        have hmain := ih ads ivals (i + 1) itv d a hkrest hads hrest
        refine ⟨?_, hmain⟩
        intro hmem
        rcases List.mem_map.mp hmem with ⟨y, hy, hkey⟩
        rcases inject_aux_mem rest ads ivals (i + 1) itv d a y hy with hyr | ⟨ad2, _, rfl⟩
        · exact hxk (hkey ▸ List.mem_map_of_mem FeedItem.key hyr)
        · exact key_fst_ne_two x hx (congrArg Prod.fst hkey).symm
    · rw [if_neg hc]
      rw [List.map_cons, List.nodup_cons]
      have hmain := ih ads ivals (i + 1) itv d a hkrest hads hrest
      refine ⟨?_, hmain⟩
      intro hmem
      rcases List.mem_map.mp hmem with ⟨y, hy, hkey⟩
      rcases inject_aux_mem rest ads ivals (i + 1) itv d a y hy with hyr | ⟨ad2, _, rfl⟩
      · exact hxk (hkey ▸ List.mem_map_of_mem FeedItem.key hyr)
      · exact key_fst_ne_two x hx (congrArg Prod.fst hkey).symm

/-- The truncated, ad-injected feed keeps distinct keys whenever the
organic list has them, is ad-free, and the shuffled candidates have
distinct ids. -/
theorem final_keys_nodup (items : List FeedItem) (cands : List Ad) (iv : ℕ → ℕ) (n : ℕ)
    (hk : (items.map FeedItem.key).Nodup)
    (hna : ∀ it ∈ items, it.isAd = false)
    (hcand : (cands.map Ad.id).Nodup) :
    (((if items.isEmpty then items else inject_ads items cands iv).take n).map
      FeedItem.key).Nodup := by
  rw [List.map_take]
  refine List.Nodup.sublist (List.take_sublist _ _) ?_
  split
  · exact hk
  · unfold inject_ads
    refine inject_aux_key_nodup items cands iv 0 (iv 0) 1 0 hk ?_ hna
    simpa using hcand

/-- C8: (a) the entry point is safe to call with limit 0: for every score
type, database, cache, clock, shuffle and interval stream it returns the
empty feed and creates no impression rows; (b) whenever the stored post
ids and ad ids are duplicate-free, the cache's index-to-id video map has
injective lookups, and the shuffle is a permutation, the returned feed
never contains two entries with the same `(item_type, item_id)` key. -/
theorem C8_limit_zero_safe_and_no_duplicate_keys :
    (∀ (K : Type) [Zero K] [One K] [Add K] [Neg K] [Mul K] [Div K]
      (kle : K → K → Bool) (sqrt : K → K) (ofZ : ℤ → K) (db : DB) (cache : Cache K)
      (now : ℤ) (sh : List Ad → List Ad) (iv : ℕ → ℕ) (uid : ℕ),
      get_recommendations_for_user K kle sqrt ofZ db cache now sh iv uid 0 = ([], [])) ∧
    (∀ (K : Type) [Zero K] [One K] [Add K] [Neg K] [Mul K] [Div K]
      (kle : K → K → Bool) (sqrt : K → K) (ofZ : ℤ → K) (db : DB) (cache : Cache K)
      (now : ℤ) (sh : List Ad → List Ad) (iv : ℕ → ℕ) (uid n : ℕ),
      (db.posts.map Post.id).Nodup →
      (db.ads.map Ad.id).Nodup →
      (∀ i i' v, alookup (cache.video_idx_to_id.getD []) i = some v →
        alookup (cache.video_idx_to_id.getD []) i' = some v → i = i') →
      (∀ l, List.Perm (sh l) l) →
      ((get_recommendations_for_user K kle sqrt ofZ db cache now sh iv uid n).1.map
        FeedItem.key).Nodup) := by
  constructor
  · intro K _ _ _ _ _ _ kle sqrt ofZ db cache now sh iv uid
    unfold get_recommendations_for_user
    dsimp only
    rw [posts_section_zero]
    simp
  · intro K _ _ _ _ _ _ kle sqrt ofZ db cache now sh iv uid n hposts hads hcinj hperm
    unfold get_recommendations_for_user
    dsimp only
    apply final_keys_nodup
    · split
      · rw [List.map_append]
        refine List.Nodup.append
          (keys_post_nodup _ (posts_section_ids_nodup db uid n hposts))
          (keys_video_nodup _ (videos_section_ids_nodup K kle sqrt ofZ db cache uid _ hcinj))
          ?_
        intro x hx1 hx2
        have h0 := mem_post_keys_fst _ x hx1
        have h1 := mem_video_keys_fst _ x hx2
        rw [h0] at h1
        exact absurd h1 (by decide)
      · exact keys_post_nodup _ (posts_section_ids_nodup db uid n hposts)
    · intro it hit
      split at hit
      · rcases List.mem_append.mp hit with h | h
        · rcases List.mem_map.mp h with ⟨p, _, rfl⟩; rfl
        · rcases List.mem_map.mp h with ⟨v, _, rfl⟩; rfl
      · rcases List.mem_map.mp hit with ⟨p, _, rfl⟩; rfl
    · refine ((hperm (candidate_ads db now uid)).map Ad.id).nodup_iff.mpr ?_
      exact List.Nodup.sublist ((List.filter_sublist _).map Ad.id) hads

/-- C8 witness: both parts at the concrete store `db1` with the empty
cache, the identity shuffle and a constant interval stream. -/
theorem C8_limit_zero_safe_and_no_duplicate_keys_witness :
    get_recommendations_for_user F2 F2.le F2.sqrt F2.ofInt db1 (Cache.empty F2) 0 id
      (fun _ => 7) 1 0 = ([], []) ∧
    ((get_recommendations_for_user F2 F2.le F2.sqrt F2.ofInt db1 (Cache.empty F2) 0 id
      (fun _ => 7) 1 3).1.map FeedItem.key).Nodup :=
  ⟨C8_limit_zero_safe_and_no_duplicate_keys.1 F2 F2.le F2.sqrt F2.ofInt db1
      (Cache.empty F2) 0 id (fun _ => 7) 1,
   C8_limit_zero_safe_and_no_duplicate_keys.2 F2 F2.le F2.sqrt F2.ofInt db1
      (Cache.empty F2) 0 id (fun _ => 7) 1 3 (by decide) (by decide)
      (fun i i' v hi _ => by simp [Cache.empty, alookup] at hi)
      (fun l => List.Perm.refl l)⟩

end Blade
